import Mathlib

/-!
Verification development for the openfoamparser mesh/field reader
(src/lib.rs).  The Rust source is shallowly embedded: each parser takes
the textual content of its file as a list of lines (the Rust code reads
the file with read_to_string and splits on a newline character, which is
modelled by that list), machine integers usize/i64 become Nat/Int
(overflow of 64-bit arithmetic is out of scope of every claim treated
here), and fallible Rust code returns an explicit result type in which
an index-out-of-bounds or unwrap-on-None panic is a distinguished
outcome.  ASCII input is assumed throughout, so Rust byte indices used
by str::find coincide with character indices.
-/

namespace Ofp

/-- Error values of the library, one constructor per distinct
io::Error produced in src/lib.rs, carrying the data interpolated into
the corresponding message text. -/
inductive PErr where
  /-- The message text is built from the expected and found counts. -/
  | countMismatch (expected found : Nat)
  /-- Malformed faces file at a line, with the offending line number and text. -/
  | malformedFaces (lineNo : Nat) (line : String)
  /-- Message text of src/lib.rs line 504: reached end of file unexpectedly. -/
  | eofBoundary
  /-- Missing an opening parenthesis after the number of boundaries. -/
  | missingParenBoundary
  /-- Missing an opening brace after a boundary patch name. -/
  | missingBrace
  /-- Malformed key-value pair in a boundary definition. -/
  | malformedKV (line : String)
  /-- Malformatted boundary data: a value failed to parse. -/
  | malformedBoundaryData (line : String)
  /-- Internal field file is shorter than declared. -/
  | fileShorter
  /-- Number of expected values not given in a nonuniform internal field. -/
  | noCountNonuniform
  /-- Malformed internal field uniform data line. -/
  | malformedUniform (line : String)
  /-- Internal field not defined as either uniform or nonuniform. -/
  | notUniformDecl
  /-- Did not find any data in an internal field file. -/
  | noData
deriving DecidableEq

/-- Result of running a piece of the Rust library: a normal value, a
typed io::Error, or a panic (an out-of-bounds index, a slice out of
range, an unwrap of None, or an arithmetic overflow abort). -/
inductive PRes (α : Type) where
  | ok (val : α)
  | err (e : PErr)
  | panic
deriving DecidableEq

/-- Check that a character list is a nonempty run of ASCII digits. -/
def allDigits (cs : List Char) : Bool :=
  !cs.isEmpty && cs.all Char.isDigit

/-- Numeric value of a digit run, by left fold. -/
def natOfDigits (cs : List Char) : Nat :=
  cs.foldl (fun a c => a * 10 + (c.toNat - 48)) 0

/-- Model of str::parse::<usize>: an optional leading plus sign followed
by at least one ASCII digit, nothing else. -/
def parseNat? (s : String) : Option Nat :=
  match s.data with
  | '+' :: rest => if allDigits rest then some (natOfDigits rest) else none
  | cs => if allDigits cs then some (natOfDigits cs) else none

/-- Model of str::parse::<i64>: an optional sign followed by at least
one ASCII digit, nothing else. -/
def parseInt? (s : String) : Option Int :=
  match s.data with
  | '-' :: rest => if allDigits rest then some (-(natOfDigits rest : Int)) else none
  | '+' :: rest => if allDigits rest then some ((natOfDigits rest : Int)) else none
  | cs => if allDigits cs then some ((natOfDigits cs : Int)) else none

/-- Character-list core of str::trim (whitespace stripped on both ends). -/
def trimChars (cs : List Char) : List Char :=
  ((cs.dropWhile Char.isWhitespace).reverse.dropWhile Char.isWhitespace).reverse

/-- Model of str::trim. -/
def strTrim (s : String) : String :=
  String.mk (trimChars s.data)

/-- Model of str::starts_with on a string or character pattern. -/
def strStartsWith (s pat : String) : Bool :=
  pat.data.isPrefixOf s.data

/-- Character-list core of str::contains on a string pattern. -/
def listContains (s pat : List Char) : Bool :=
  pat.isPrefixOf s ||
    match s with
    | [] => false
    | _ :: rest => listContains rest pat

/-- Model of str::contains on a string pattern. -/
def strContains (s pat : String) : Bool :=
  listContains s.data pat.data

/-- Model of str::find on a character pattern: index of the first
occurrence of the character. -/
def findIdxChar (c : Char) : List Char → Option Nat
  | [] => none
  | x :: xs => if x == c then some 0 else (findIdxChar c xs).map (· + 1)

/-- Character-list core of str::split on a character separator: splits
at every occurrence, keeping empty pieces, as Rust split(' ') does. -/
def splitOnCharL (sep : Char) : List Char → List (List Char)
  | [] => [[]]
  | c :: rest =>
    match splitOnCharL sep rest with
    | [] => [[]]
    | g :: gs => if c == sep then [] :: g :: gs else (c :: g) :: gs

/-- Model of str::split on a character separator, producing strings. -/
def splitCharS (sep : Char) (s : String) : List String :=
  (splitOnCharL sep s.data).map (fun cs => String.mk cs)

/-- Model of str::strip_suffix with the one-character suffix used by the
boundary reader: drop a final semicolon, or fail. -/
def stripSemicolon (s : String) : Option String :=
  match s.data.getLast? with
  | some c => if c == ';' then some (String.mk s.data.dropLast) else none
  | none => none

/-- One boundary patch record, as in the Rust struct Boundary. -/
structure Boundary where
  boundary_type : String
  num_faces : Nat
  start_face : Nat
  boundary_id : Int
deriving DecidableEq

/-- The mesh aggregate, as in the Rust struct FoamMesh.  The fields
path, points and cell_centers of the Rust struct carry a filesystem
path and floating-point geometry; no claim treated here refers to them
and they are omitted from the embedding.  The boundary HashMap is
modelled as the list of insertions in insertion order; lookup semantics
of the HashMap (last insert for a key wins) are recovered by hmGet. -/
structure FoamMesh where
  boundary : List (String × Boundary)
  faces : List (List Nat)
  cell_faces : List (List Nat)
  owners : List Nat
  neighbors : List Int
  cell_neighbors : List (List Int)
  num_inner_faces : Nat
  num_cells : Nat
deriving DecidableEq

/-- Model of HashMap::get on the insertion-order list: the last
insertion for a key wins, as in the Rust HashMap. -/
def hmGet (l : List (String × Boundary)) (k : String) : Option Boundary :=
  (l.reverse.find? (fun p => p.1 == k)).map Prod.snd

/-- Model of HashMap::insert on the insertion-order list. -/
def hmInsert (l : List (String × Boundary)) (k : String) (b : Boundary) :
    List (String × Boundary) :=
  l ++ [(k, b)]

/-- Loop body state of FoamMesh::parse_scalars (src/lib.rs 261-288): the
accumulated data and the declared count num_expected.  The element type
parameter of the Rust function is embedded as the parsing function pT
for the target FromStr type. -/
def scalarsLoop (pT : String → Option α) : List String → List α → Nat → List α × Nat
  | [], data, numExpected => (data, numExpected)
  | line :: rest, data, numExpected =>
    if 0 < numExpected then
      match pT line with
      | some v => scalarsLoop pT rest (data ++ [v]) numExpected
      | none => scalarsLoop pT rest data numExpected
    else
      match parseNat? line with
      | some n => scalarsLoop pT rest data n
      | none => scalarsLoop pT rest data numExpected

/-- Embedding of FoamMesh::parse_scalars: lines is the file content
split on newline characters; skip lines are dropped first. -/
def FoamMesh.parse_scalars (pT : String → Option α) (lines : List String)
    (skip : Nat) : PRes (List α) :=
  let s := scalarsLoop pT (lines.drop skip) [] 0
  if s.1.length ≠ s.2 then .err (.countMismatch s.2 s.1.length) else .ok s.1

/-- Accumulator step for extractNums: the digit run currently being
read, if any. -/
def regexNumsAux : List Char → Option Nat → List Nat
  | [], none => []
  | [], some n => [n]
  | c :: cs, none =>
    if c.isDigit then regexNumsAux cs (some (c.toNat - 48)) else regexNumsAux cs none
  | c :: cs, some n =>
    if c.isDigit then regexNumsAux cs (some (n * 10 + (c.toNat - 48)))
    else n :: regexNumsAux cs none

/-- Model of collecting all matches of the regex for one-or-more digits
over a line and parsing each as usize (src/lib.rs 308-326): the values
of the maximal ASCII digit runs of the line, in order. -/
def extractNums (s : String) : List Nat :=
  regexNumsAux s.data none

/-- Loop body of FoamMesh::parse_faces (src/lib.rs 304-357).  The first
argument is the skip parameter, used only for the reported line number;
then the remaining lines, the running line index, the declared count,
and the accumulated faces. -/
def parseFacesLoop (skip : Nat) :
    List String → Nat → Nat → List (List Nat) → PRes (List (List Nat))
  | [], _, numFacesExpected, data =>
    if data.length ≠ numFacesExpected then
      .err (.countMismatch numFacesExpected data.length)
    else .ok data
  | line :: rest, i, numFacesExpected, data =>
    if 0 < numFacesExpected then
      match extractNums line with
      | [] => parseFacesLoop skip rest (i + 1) numFacesExpected data
      | v :: vs =>
        if vs.length ≠ v then .err (.malformedFaces (skip + i) line)
        else parseFacesLoop skip rest (i + 1) numFacesExpected (data ++ [vs])
    else
      match parseNat? line with
      | some n => parseFacesLoop skip rest (i + 1) n data
      | none => parseFacesLoop skip rest (i + 1) numFacesExpected data

/-- Embedding of FoamMesh::parse_faces.  The check on a data line in the
source is vals.len() != vals[0] + 1, which for vals = v :: vs is
vs.length != v; on success vals.remove(0) pushes vs. -/
def FoamMesh.parse_faces (lines : List String) (skip : Nat) :
    PRes (List (List Nat)) :=
  parseFacesLoop skip (lines.drop skip) 0 0 []

/-- The mutable local variables of the FoamMesh::parse_boundary loop
(src/lib.rs 490-569), in source order, together with the line index i. -/
structure BState where
  in_boundary_field : Bool
  in_patch_field : Bool
  current_patch : String
  current_type : String
  current_num_faces : Nat
  current_start_face : Nat
  bid : Int
  bd : List (String × Boundary)
  i : Nat
deriving DecidableEq

/-- Outcome of one iteration of the parse_boundary loop body: either the
loop terminates with a result (return or break), or it continues with an
updated state. -/
inductive BStep where
  | halt (r : PRes (List (String × Boundary)))
  | next (st : BState)
deriving DecidableEq

/-- Embedding of the nested helper get_val of parse_boundary
(src/lib.rs 453-468): the second non-empty token of the line split on
spaces, with a trailing semicolon stripped; None models the Err case. -/
def get_val (line : String) : Option String :=
  match ((splitCharS ' ' line).filter (fun s => !s.isEmpty)).get? 1 with
  | some v => stripSemicolon v
  | none => none

/-- Embedding of the nested helper get_parsed_val of parse_boundary at
type usize (src/lib.rs 469-483): get_val, then parse. -/
def get_parsed_valN (line : String) : PRes Nat :=
  match get_val line with
  | none => .err (.malformedKV line)
  | some v =>
    match parseNat? v with
    | some n => .ok n
    | none => .err (.malformedBoundaryData line)

/-- State update: advance the line index by k, all variables unchanged. -/
def stAdvance (st : BState) (k : Nat) : BState :=
  ⟨st.in_boundary_field, st.in_patch_field, st.current_patch, st.current_type,
    st.current_num_faces, st.current_start_face, st.bid, st.bd, st.i + k⟩

/-- State update: set in_boundary_field and advance the index by k. -/
def stEnterBlock (st : BState) (k : Nat) : BState :=
  ⟨true, st.in_patch_field, st.current_patch, st.current_type,
    st.current_num_faces, st.current_start_face, st.bid, st.bd, st.i + k⟩

/-- State update for a closing brace (src/lib.rs 530-539): leave the
patch field, insert the accumulated patch record with boundary_id equal
to -10 - bid, increment bid, clear current_patch, advance by one. -/
def stInsert (st : BState) : BState :=
  ⟨st.in_boundary_field, false, "", st.current_type,
    st.current_num_faces, st.current_start_face, st.bid + 1,
    hmInsert st.bd st.current_patch
      ⟨st.current_type, st.current_num_faces, st.current_start_face, -10 - st.bid⟩,
    st.i + 1⟩

/-- State update: record a parsed nFaces value and advance by one. -/
def stSetNum (st : BState) (v : Nat) : BState :=
  ⟨st.in_boundary_field, st.in_patch_field, st.current_patch, st.current_type,
    v, st.current_start_face, st.bid, st.bd, st.i + 1⟩

/-- State update: record a parsed startFace value and advance by one. -/
def stSetStart (st : BState) (v : Nat) : BState :=
  ⟨st.in_boundary_field, st.in_patch_field, st.current_patch, st.current_type,
    st.current_num_faces, v, st.bid, st.bd, st.i + 1⟩

/-- State update: record a parsed type value and advance by one. -/
def stSetType (st : BState) (v : String) : BState :=
  ⟨st.in_boundary_field, st.in_patch_field, st.current_patch, v,
    st.current_num_faces, st.current_start_face, st.bid, st.bd, st.i + 1⟩

/-- State update: enter a patch with the given name, advancing by k. -/
def stEnterPatch (st : BState) (name : String) (k : Nat) : BState :=
  ⟨st.in_boundary_field, true, name, st.current_type,
    st.current_num_faces, st.current_start_face, st.bid, st.bd, st.i + k⟩

/-- Branch of the loop body for a line that parses as the boundary count
(src/lib.rs 510-525): expect an opening parenthesis on the next line,
or one blank line and then the parenthesis.  The content[i+1] and
content[i+2] accesses panic when out of range. -/
def stepCount (content : List String) (st : BState) : BStep :=
  if _h1 : st.i + 1 < content.length then
    if strStartsWith (content.getD (st.i + 1) "") ("(") then .next (stEnterBlock st 2)
    else if (strTrim (content.getD (st.i + 1) "")).isEmpty then
      if _h2 : st.i + 2 < content.length then
        if strStartsWith (content.getD (st.i + 2) "") ("(") then .next (stEnterBlock st 3)
        else .halt (.err .missingParenBoundary)
      else .halt .panic
    else .halt (.err .missingParenBoundary)
  else .halt .panic

/-- Branch of the loop body inside a patch block (src/lib.rs 529-546):
a closing brace finalizes the record, otherwise nFaces, startFace and
type key-value lines update the current variables, in that precedence;
any other line is skipped. -/
def stepPatchLine (line : String) (st : BState) : BStep :=
  if strTrim line = "\x7d" then .next (stInsert st)
  else if strContains line ("nFaces") then
    match get_parsed_valN line with
    | .ok v => .next (stSetNum st v)
    | .err e => .halt (.err e)
    | .panic => .halt .panic
  else if strContains line ("startFace") then
    match get_parsed_valN line with
    | .ok v => .next (stSetStart st v)
    | .err e => .halt (.err e)
    | .panic => .halt .panic
  else if strContains line ("type") then
    match get_val line with
    | some v => .next (stSetType st v)
    | none => .halt (.err (.malformedKV line))
  else .next (stAdvance st 1)

/-- Branch of the loop body between patch blocks (src/lib.rs 547-566):
skip a blank line; otherwise the line is the next patch name and must be
followed, directly or after one blank line, by an opening brace line. -/
def stepPatchName (content : List String) (line : String) (st : BState) : BStep :=
  if (strTrim line).isEmpty then .next (stAdvance st 1)
  else if _h1 : st.i + 1 < content.length then
    if strTrim (content.getD (st.i + 1) "") = "\x7b" then
      .next (stEnterPatch st (strTrim line) 2)
    else if (strTrim (content.getD (st.i + 1) "")).isEmpty then
      if _h2 : st.i + 2 < content.length then
        if strTrim (content.getD (st.i + 2) "") = "\x7b" then
          .next (stEnterPatch st (strTrim line) 3)
        else .halt (.err .missingBrace)
      else .halt .panic
    else .halt (.err .missingBrace)
  else .halt .panic

/-- One iteration of the parse_boundary loop body (src/lib.rs 500-569).
The source checks i > content.len() and then indexes content[i], so an
index equal to the length is a panic, not the end-of-file error; the
same holds for the content[i+1] and content[i+2] accesses of the
dispatched branches. -/
def boundaryStep (content : List String) (st : BState) : BStep :=
  if content.length < st.i then .halt (.err .eofBoundary)
  else if _h0 : st.i < content.length then
    if st.in_boundary_field = false ∧ (parseInt? (strTrim (content.getD st.i ""))).isSome then
      stepCount content st
    else if st.in_boundary_field = false then .next (stAdvance st 1)
    else if strStartsWith (content.getD st.i "") (")") then .halt (.ok st.bd)
    else if st.in_patch_field then stepPatchLine (content.getD st.i "") st
    else stepPatchName content (content.getD st.i "") st
  else .halt .panic

/-- Index bound for the count branch. -/
def stepCount_bound (content : List String) (st st2 : BState)
    (h : stepCount content st = .next st2) :
    st.i < st2.i ∧ st2.i ≤ content.length := by
  unfold stepCount at h
  repeat' split at h
  all_goals cases h
  all_goals simp [stEnterBlock]
  all_goals omega

/-- Index bound for the in-patch branch. -/
def stepPatchLine_bound (line : String) (st st2 : BState)
    (h : stepPatchLine line st = .next st2) : st2.i = st.i + 1 := by
  unfold stepPatchLine at h
  repeat' split at h
  all_goals cases h
  all_goals simp [stInsert, stSetNum, stSetStart, stSetType, stAdvance]

/-- Index bound for the patch-name branch. -/
def stepPatchName_bound (content : List String) (line : String) (st st2 : BState)
    (h0 : st.i < content.length) (h : stepPatchName content line st = .next st2) :
    st.i < st2.i ∧ st2.i ≤ content.length := by
  unfold stepPatchName at h
  repeat' split at h
  all_goals cases h
  all_goals simp [stAdvance, stEnterPatch]
  all_goals omega

/-- Whenever the loop body continues, the line index strictly increases
and stays no larger than the number of lines; this justifies the
termination measure of parseBoundaryLoop. -/
def boundaryStep_bound (content : List String) (st st2 : BState)
    (h : boundaryStep content st = .next st2) :
    st.i < st2.i ∧ st2.i ≤ content.length := by
  unfold boundaryStep at h
  split at h
  · cases h
  split at h
  case isFalse => cases h
  split at h
  · exact stepCount_bound content st st2 h
  split at h
  · cases h; simp [stAdvance]; omega
  split at h
  · cases h
  split at h
  · have := stepPatchLine_bound _ st st2 h
    omega
  · exact stepPatchName_bound content _ st st2 (by assumption) h

/-- Embedding of the parse_boundary loop (src/lib.rs 500-569): iterate
the loop body until it halts. -/
def parseBoundaryLoop (content : List String) (st : BState) :
    PRes (List (String × Boundary)) :=
  match h : boundaryStep content st with
  | .halt r => r
  | .next st2 => parseBoundaryLoop content st2
termination_by content.length + 1 - st.i
decreasing_by
  have hb := boundaryStep_bound content st st2 h
  omega

/-- Embedding of FoamMesh::parse_boundary (src/lib.rs 447-572): drop the
skip header lines, then run the loop from the initial variable state. -/
def FoamMesh.parse_boundary (lines : List String) (skip : Nat) :
    PRes (List (String × Boundary)) :=
  parseBoundaryLoop (lines.drop skip) ⟨false, false, "", "", 0, 0, 0, [], 0⟩

/-- Embedding of parse_internal_field_data_uniform (src/lib.rs 629-651):
find the first opening and the first closing parenthesis on the line,
split the text strictly between them on spaces, and keep the tokens the
element decoder accepts.  A closing parenthesis strictly before the
opening one makes the Rust slice expression panic. -/
def uniformField (d : String → Option α) (line : String) : PRes (List α) :=
  match findIdxChar '(' line.data, findIdxChar ')' line.data with
  | some s, some e =>
    if e < s + 1 then .panic
    else .ok ((((splitOnCharL ' ' ((line.data.drop (s + 1)).take (e - (s + 1)))).map
      (fun cs => String.mk cs)).filterMap d))
  | _, _ => .err (.malformedUniform line)

/-- Embedding of parse_internal_field_data_nonuniform (src/lib.rs
653-692).  The declared count M is parsed from the line after the
declaration; the source guards M + start > content.len() with the
shorter-than-declared error but then slices
content[start+3 .. start+3+M], which panics whenever start+3+M exceeds
the length, so the guard is off by three.  Lines the decoder rejects are
skipped and the decoded count must equal M. -/
def nonuniformField (d : String → Option α) (content : List String)
    (start : Nat) : PRes (List α) :=
  match content.get? (start + 1) with
  | none => .panic
  | some cntLine =>
    match parseNat? cntLine with
    | none => .err .noCountNonuniform
    | some m =>
      if content.length < m + start then .err .fileShorter
      else if content.length < start + 3 + m then .panic
      else
        let data := ((content.drop (start + 3)).take m).filterMap d
        if data.length ≠ m then .err (.countMismatch m data.length)
        else .ok data

/-- Scan of parse_internal_field (src/lib.rs 596-616): find the first
line starting with internalField and dispatch on its keywords; every
branch of the loop body returns, so later lines are never examined. -/
def pifLoop (d : String → Option α) (content : List String) :
    List String → Nat → PRes (List α)
  | [], _ => .err .noData
  | line :: rest, i =>
    if strStartsWith line ("internalField") then
      if strContains line ("nonuniform") then nonuniformField d content i
      else if strContains line ("uniform") then uniformField d line
      else .err .notUniformDecl
    else pifLoop d content rest (i + 1)

/-- Embedding of parse_internal_field (src/lib.rs 586-621); content is
the field file split on newline characters, d the element decoder. -/
def parse_internal_field (d : String → Option α) (content : List String) :
    PRes (List α) :=
  pifLoop d content content 0

/-- Embedding of parse_vals_from_brackets (src/lib.rs 694-700): strip a
leading opening and a trailing closing parenthesis, split on spaces, and
parse each token with the scalar parser, keeping the successes. -/
def parse_vals_from_brackets (pT : String → Option α) (s : String) :
    Option (List α) :=
  match s.data with
  | '(' :: rest =>
    if rest.getLast? = some ')' then
      some (((splitOnCharL ' ' rest.dropLast).map (fun cs => String.mk cs)).filterMap pT)
    else none
  | _ => none

/-- Embedding of parse_vector3 at an integer component type
(src/lib.rs 709-714): exactly three decoded components are required.
The Rust component type is f64 in the library's main use; an integer
instantiation is used here since floating point is out of scope, and
the structure of the function is unchanged by the component type. -/
def parse_vector3 (s : String) : Option (Int × Int × Int) :=
  match parse_vals_from_brackets parseInt? s with
  | none => none
  | some vals =>
    match vals with
    | [a, b, c] => some (a, b, c)
    | _ => none

/-- Model of Iterator::max over a list of naturals: None on the empty
list, as unwrapped at src/lib.rs 120. -/
def maxNat? : List Nat → Option Nat
  | [] => none
  | x :: xs =>
    match maxNat? xs with
    | none => some x
    | some m => some (Nat.max x m)

/-- Model of Iterator::max over a list of integers, as unwrapped at
src/lib.rs 133. -/
def maxInt? : List Int → Option Int
  | [] => none
  | x :: xs =>
    match maxInt? xs with
    | none => some x
    | some m => some (max x m)

/-- Model of Vec::push on the idx-th inner vector: fails (the Rust
indexing panics) when idx is out of range. -/
def pushAt (ls : List (List α)) (idx : Nat) (v : α) : Option (List (List α)) :=
  match ls.get? idx with
  | some xs => some (ls.set idx (xs ++ [v]))
  | none => none

/-- Model of the inner loop at src/lib.rs 125-127: write v at the
indices s, s+1, ..., s+n-1 of l, failing at the first out-of-range
index as the Rust indexing does. -/
def setRange (l : List Int) (s n : Nat) (v : Int) : Option (List Int) :=
  match n with
  | 0 => some l
  | m + 1 =>
    if s < l.length then setRange (l.set s v) (s + 1) m v else none

/-- Model of the loop over boundary.values() at src/lib.rs 124-128:
overwrite each patch's face range with its boundary_id.  The values of
the Rust HashMap are iterated in an arbitrary order; the embedding
iterates the given list, and the claims quantify over all lists. -/
def applyPatches (l : List Int) : List Boundary → Option (List Int)
  | [] => some l
  | b :: rest =>
    match setRange l b.start_face b.num_faces b.boundary_id with
    | some l2 => applyPatches l2 rest
    | none => none

/-- Model of the loop at src/lib.rs 137-139: push each face index onto
the cell_faces entry of its owner. -/
def ownerLoop : List (List Nat) → List Nat → Nat → Option (List (List Nat))
  | cf, [], _ => some cf
  | cf, o :: rest, i => (pushAt cf o i).bind fun cf2 => ownerLoop cf2 rest (i + 1)

/-- Model of the loop at src/lib.rs 140-146 over the extended neighbors
array: for a non-negative neighbor push the face onto its cell_faces
entry and the owner onto its cell_neighbors entry, and unconditionally
push the neighbor value onto the owner's cell_neighbors entry. -/
def neighborLoop (owners : List Nat) :
    List (List Nat) → List (List Int) → List Int → Nat →
    Option (List (List Nat) × List (List Int))
  | cf, cn, [], _ => some (cf, cn)
  | cf, cn, nb :: rest, i =>
    if 0 ≤ nb then
      (pushAt cf nb.toNat i).bind fun cf2 =>
      (owners.get? i).bind fun oi =>
      (pushAt cn nb.toNat (Int.ofNat oi)).bind fun cn2 =>
      (pushAt cn2 oi nb).bind fun cn3 =>
      neighborLoop owners cf2 cn3 rest (i + 1)
    else
      (owners.get? i).bind fun oi =>
      (pushAt cn oi nb).bind fun cn2 =>
      neighborLoop owners cf cn2 rest (i + 1)

/-- Embedding of the in-memory phase of FoamMesh::new (src/lib.rs
106-161), taking the outputs of the four grammar readers: the boundary
map as its insertion list, the parsed faces, owners and raw neighbours.
It computes num_cells as the unwrapped maximum of owners (line 120,
panicking on an empty owner list), extends neighbors with the -10
placeholder (line 123, panicking when the raw neighbour list is longer
than the owner list), overwrites patch ranges (lines 124-128), sizes the
cell arrays by the maximum of num_cells and the largest neighbor entry
plus one (lines 131-136) and builds the adjacency lists (lines
137-146).  None models a panic. -/
def FoamMesh.construct (bnd : List (String × Boundary)) (faces : List (List Nat))
    (owners : List Nat) (nbrs : List Int) : Option FoamMesh :=
  (maxNat? owners).bind fun num_cells =>
  if nbrs.length ≤ owners.length then
    (applyPatches (nbrs ++ List.replicate (owners.length - nbrs.length) (-10))
        (bnd.map Prod.snd)).bind fun nbrs2 =>
    (maxInt? nbrs2).bind fun mx =>
    (ownerLoop (List.replicate ((max (Int.ofNat num_cells) mx).toNat + 1) [])
        owners 0).bind fun cf1 =>
    (neighborLoop owners cf1
        (List.replicate ((max (Int.ofNat num_cells) mx).toNat + 1) []) nbrs2 0).map fun p =>
    ⟨bnd, faces, p.1, owners, nbrs2, p.2, nbrs.length, num_cells⟩
  else none

/-- Embedding of FoamMesh::is_face_on_boundary (src/lib.rs 220-235).
The face_id bound is checked against the faces list, but the neighbors
list is the one indexed, so the access panics (None) when the faces list
is longer than the owner list. -/
def FoamMesh.is_face_on_boundary (m : FoamMesh) (face_id : Nat)
    (bd_name : Option String) : Option Bool :=
  if m.faces.length ≤ face_id then some false
  else
    match bd_name with
    | some name =>
      match hmGet m.boundary name with
      | some bd => (m.neighbors.get? face_id).map (fun x => decide (x = bd.boundary_id))
      | none => some false
    | none => (m.neighbors.get? face_id).map (fun x => decide (x < 0))

/-- Whether a face id falls into the declared range of some patch. -/
def inAnyPatch (bs : List Boundary) (f : Nat) : Bool :=
  bs.any (fun b => decide (b.start_face ≤ f) && decide (f < b.start_face + b.num_faces))

/-- Whether a cell_neighbors entry is a valid non-negative cell index
(below the size of the cell arrays) or the boundary_id of some patch. -/
def entryOk (bs : List Boundary) (numCells : Nat) (x : Int) : Bool :=
  (decide (0 ≤ x) && decide (x.toNat < numCells)) || bs.any (fun b => x == b.boundary_id)

/-- Face indices contributed to cell_faces[c] by the owner loop
(src/lib.rs 137-139), for owners listed from index i on. -/
def ownerContrib : List Nat → Nat → Nat → List Nat
  | [], _, _ => []
  | o :: rest, i, c => (if o = c then [i] else []) ++ ownerContrib rest (i + 1) c

/-- Face indices contributed to cell_faces[c] by the neighbor loop
(src/lib.rs 140-146), for neighbors listed from index i on. -/
def cfContrib : List Int → Nat → Nat → List Nat
  | [], _, _ => []
  | nb :: rest, i, c =>
    (if nb = Int.ofNat c then [i] else []) ++ cfContrib rest (i + 1) c

/-- Entries contributed to cell_neighbors[c] by the neighbor loop
(src/lib.rs 140-146): at face i, first the owner of i when the face's
neighbor is c, then the neighbor value when the owner of i is c. -/
def cnContrib (owners : List Nat) : List Int → Nat → Nat → List Int
  | [], _, _ => []
  | nb :: rest, i, c =>
    ((if nb = Int.ofNat c then [Int.ofNat (owners.getD i 0)] else []) ++
      (if owners.getD i 0 = c then [nb] else [])) ++ cnContrib owners rest (i + 1) c

/-- The boundary_id values of a parsed boundary list are exactly -10,
-11, ... in insertion (file) order. -/
def idsAssigned (bd : List (String × Boundary)) : Prop :=
  bd.map (fun p => p.2.boundary_id) = (List.range bd.length).map (fun j => -10 - (j : Int))

/-- Adjacency invariants of a constructed mesh, relative to the reader
outputs it was built from: the parallel-length invariant, the symmetry
of the internal-face adjacency, and, when every raw neighbour entry is
non-negative and every face index at or beyond the raw neighbour count
is covered by some patch range, the classification of every
cell_neighbors entry as a valid cell index or a patch boundary_id. -/
def c2Prop (bnd : List (String × Boundary)) (owners : List Nat)
    (nbrs : List Int) (m : FoamMesh) : Prop :=
  (∀ c, (m.cell_faces.getD c []).length = (m.cell_neighbors.getD c []).length) ∧
  (∀ f v, m.neighbors.get? f = some v → 0 ≤ v →
    v ∈ m.cell_neighbors.getD (m.owners.getD f 0) [] ∧
    Int.ofNat (m.owners.getD f 0) ∈ m.cell_neighbors.getD v.toNat []) ∧
  ((∀ x ∈ nbrs, 0 ≤ x) →
    (∀ i, nbrs.length ≤ i → i < owners.length → inAnyPatch (bnd.map Prod.snd) i = true) →
    ∀ c x, x ∈ m.cell_neighbors.getD c [] →
      entryOk (bnd.map Prod.snd) m.cell_neighbors.length x = true)

/-- Behaviour of is_face_on_boundary on a constructed mesh: without a
patch name it reports membership of the face id in some patch range;
with a patch name it reports whether the face's neighbor entry equals
that patch's boundary_id, and it is false for an unknown name or an
out-of-range face id. -/
def c4Prop (bnd : List (String × Boundary)) (faces : List (List Nat))
    (m : FoamMesh) : Prop :=
  (∀ f, m.is_face_on_boundary f none = some (inAnyPatch (bnd.map Prod.snd) f)) ∧
  (∀ f name, m.is_face_on_boundary f (some name) =
    some ((decide (f < faces.length)) &&
      (match hmGet bnd name with
       | some b => decide (m.neighbors.getD f 0 = b.boundary_id)
       | none => false)))

/-- The mesh built from one patch of one face, two faces of two owners
and one raw neighbour; used to instantiate hypothesis-bearing claims. -/
def meshW : FoamMesh :=
  ⟨[("w", ⟨"wall", 1, 1, -10⟩)], [[0], [1]], [[0], [1, 0]], [0, 1],
    [1, -10], [[1], [0, -10]], 1, 1⟩

/-- The mesh built from no patches and a single boundary face; its only
cell_neighbors entry is the untouched -10 placeholder. -/
def meshNoPatch : FoamMesh :=
  ⟨[], [[1, 2, 3]], [[0]], [0], [-10], [[-10]], 0, 0⟩

theorem get?_some_lt {α : Type} {l : List α} {n : Nat} {a : α}
    (h : l.get? n = some a) : n < l.length := by
  rw [List.get?_eq_getElem?] at h
  exact (List.getElem?_eq_some.mp h).1

theorem get?_eq_getD {α : Type} {l : List α} {i : Nat} (d : α) (h : i < l.length) :
    l.get? i = some (l.getD i d) := by
  simp [List.getD, List.get?_eq_getElem?, List.getElem?_eq_getElem h]

theorem get?_set_char {α : Type} (l : List α) (i j : Nat) (a : α) :
    (l.set i a).get? j =
      if i = j then (if i < l.length then some a else none) else l.get? j := by
  simp [List.get?_eq_getElem?, List.getElem?_set]

theorem maxNat?_none {l : List Nat} (h : maxNat? l = none) : l = [] := by
  cases l with
  | nil => rfl
  | cons x xs =>
    unfold maxNat? at h
    cases hm : maxNat? xs <;> rw [hm] at h <;> simp at h

theorem maxNat?_le {l : List Nat} {m : Nat} (h : maxNat? l = some m) :
    ∀ x ∈ l, x ≤ m := by
  induction l generalizing m with
  | nil => simp
  | cons x xs ih =>
    unfold maxNat? at h
    cases hm : maxNat? xs with
    | none =>
      rw [hm] at h
      simp at h
      subst h
      intro y hy
      cases hy with
      | head => exact le_refl _
      | tail _ hmem => rw [maxNat?_none hm] at hmem; cases hmem
    | some mx =>
      rw [hm] at h
      simp at h
      subst h
      intro y hy
      cases hy with
      | head => exact Nat.le_max_left _ _
      | tail _ hmem => exact le_trans (ih hm y hmem) (Nat.le_max_right _ _)

theorem maxNat?_isSome {l : List Nat} (h : l ≠ []) : ∃ m, maxNat? l = some m := by
  cases l with
  | nil => exact absurd rfl h
  | cons x xs =>
    unfold maxNat?
    cases maxNat? xs <;> simp

theorem maxInt?_le {l : List Int} {m : Int} (h : maxInt? l = some m) :
    ∀ x ∈ l, x ≤ m := by
  induction l generalizing m with
  | nil => simp
  | cons x xs ih =>
    unfold maxInt? at h
    cases hm : maxInt? xs with
    | none =>
      rw [hm] at h
      simp at h
      subst h
      intro y hy
      cases hy with
      | head => exact le_refl _
      | tail _ hmem =>
        cases xs with
        | nil => cases hmem
        | cons z zs =>
          unfold maxInt? at hm
          cases hm2 : maxInt? zs <;> rw [hm2] at hm <;> simp at hm
    | some mx =>
      rw [hm] at h
      simp at h
      subst h
      intro y hy
      cases hy with
      | head => exact le_max_left _ _
      | tail _ hmem => exact le_trans (ih hm y hmem) (le_max_right _ _)

theorem maxInt?_isSome {l : List Int} (h : l ≠ []) : ∃ m, maxInt? l = some m := by
  cases l with
  | nil => exact absurd rfl h
  | cons x xs =>
    unfold maxInt?
    cases maxInt? xs <;> simp

theorem pushAt_length {α : Type} {ls ls2 : List (List α)} {idx : Nat} {v : α}
    (h : pushAt ls idx v = some ls2) : ls2.length = ls.length := by
  unfold pushAt at h
  cases hg : ls.get? idx with
  | none => rw [hg] at h; cases h
  | some xs => rw [hg] at h; cases h; simp

theorem pushAt_some_of_lt {α : Type} {ls : List (List α)} {idx : Nat} (v : α)
    (h : idx < ls.length) : ∃ ls2, pushAt ls idx v = some ls2 := by
  unfold pushAt
  rw [get?_eq_getD [] h]
  exact ⟨_, rfl⟩

theorem pushAt_get? {α : Type} {ls ls2 : List (List α)} {idx : Nat} {v : α}
    (h : pushAt ls idx v = some ls2) (c : Nat) :
    ls2.get? c = if c = idx then (ls.get? c).map (· ++ [v]) else ls.get? c := by
  unfold pushAt at h
  cases hg : ls.get? idx with
  | none => rw [hg] at h; cases h
  | some xs =>
    rw [hg] at h
    cases h
    by_cases hc : c = idx
    · subst hc
      rw [get?_set_char, if_pos rfl, if_pos (get?_some_lt hg), if_pos rfl, hg]
      rfl
    · rw [get?_set_char, if_neg (fun hh => hc (Eq.symm hh)), if_neg hc]

theorem setRange_length {l l2 : List Int} {s n : Nat} {v : Int}
    (h : setRange l s n v = some l2) : l2.length = l.length := by
  induction n generalizing l s with
  | zero => unfold setRange at h; cases h; rfl
  | succ m ih =>
    unfold setRange at h
    split at h
    · have := ih h
      simpa using this
    · cases h

theorem setRange_some_of {l : List Int} {s n : Nat} (v : Int)
    (h : s + n ≤ l.length ∨ n = 0) : ∃ l2, setRange l s n v = some l2 := by
  induction n generalizing l s with
  | zero => exact ⟨l, rfl⟩
  | succ m ih =>
    have hs : s < l.length := by omega
    unfold setRange
    rw [if_pos hs]
    apply ih
    left
    simp
    omega

theorem setRange_none_of {l : List Int} {s n : Nat} (v : Int)
    (h1 : 0 < n) (h2 : l.length < s + n) : setRange l s n v = none := by
  induction n generalizing l s with
  | zero => omega
  | succ m ih =>
    unfold setRange
    split
    case isTrue hs =>
      have hm : 0 < m := by omega
      refine ih hm ?_
      simp
      omega
    case isFalse => rfl

theorem setRange_get? {l l2 : List Int} {s n : Nat} {v : Int}
    (h : setRange l s n v = some l2) (i : Nat) :
    l2.get? i = if s ≤ i ∧ i < s + n then some v else l.get? i := by
  induction n generalizing l s with
  | zero =>
    unfold setRange at h
    cases h
    have : ¬(s ≤ i ∧ i < s + 0) := by omega
    rw [if_neg this]
  | succ m ih =>
    unfold setRange at h
    split at h
    case isTrue hs =>
      rw [ih h]
      rw [get?_set_char]
      by_cases hi : s + 1 ≤ i ∧ i < s + 1 + m
      · rw [if_pos hi, if_pos (by omega)]
      · rw [if_neg hi]
        by_cases hsi : s = i
        · subst hsi
          rw [if_pos rfl, if_pos hs, if_pos (by omega)]
        · rw [if_neg hsi, if_neg (by omega)]
    · cases h

theorem applyPatches_length {l l2 : List Int} {bs : List Boundary}
    (h : applyPatches l bs = some l2) : l2.length = l.length := by
  induction bs generalizing l with
  | nil => unfold applyPatches at h; cases h; rfl
  | cons b rest ih =>
    unfold applyPatches at h
    cases hs : setRange l b.start_face b.num_faces b.boundary_id with
    | none => rw [hs] at h; cases h
    | some lm =>
      rw [hs] at h
      rw [ih h, setRange_length hs]

theorem applyPatches_some_of {l : List Int} {bs : List Boundary}
    (h : ∀ b ∈ bs, b.start_face + b.num_faces ≤ l.length ∨ b.num_faces = 0) :
    ∃ l2, applyPatches l bs = some l2 := by
  induction bs generalizing l with
  | nil => exact ⟨l, rfl⟩
  | cons b rest ih =>
    obtain ⟨lm, hm⟩ := setRange_some_of b.boundary_id (h b (by simp))
    unfold applyPatches
    rw [hm]
    apply ih
    intro b2 hb2
    rw [setRange_length hm]
    exact h b2 (by simp [hb2])

theorem applyPatches_ranges {l l2 : List Int} {bs : List Boundary}
    (h : applyPatches l bs = some l2) :
    ∀ b ∈ bs, b.start_face + b.num_faces ≤ l.length ∨ b.num_faces = 0 := by
  induction bs generalizing l with
  | nil => simp
  | cons b rest ih =>
    unfold applyPatches at h
    cases hs : setRange l b.start_face b.num_faces b.boundary_id with
    | none => rw [hs] at h; cases h
    | some lm =>
      rw [hs] at h
      intro b2 hb2
      cases hb2 with
      | head =>
        by_cases hz : b.num_faces = 0
        · right; exact hz
        · left
          by_contra hlt
          rw [setRange_none_of b.boundary_id (by omega) (by omega)] at hs
          cases hs
      | tail _ hmem =>
        have := ih h b2 hmem
        rw [setRange_length hs] at this
        exact this

theorem applyPatches_get? {l l2 : List Int} {bs : List Boundary}
    (h : applyPatches l bs = some l2) (i : Nat) :
    (∃ b ∈ bs, b.start_face ≤ i ∧ i < b.start_face + b.num_faces ∧
      l2.get? i = some b.boundary_id) ∨
    ((∀ b ∈ bs, ¬(b.start_face ≤ i ∧ i < b.start_face + b.num_faces)) ∧
      l2.get? i = l.get? i) := by
  induction bs generalizing l with
  | nil =>
    unfold applyPatches at h
    cases h
    right
    exact ⟨by simp, rfl⟩
  | cons b rest ih =>
    unfold applyPatches at h
    cases hs : setRange l b.start_face b.num_faces b.boundary_id with
    | none => rw [hs] at h; cases h
    | some lm =>
      rw [hs] at h
      rcases ih h with ⟨b2, hb2, hle, hlt, hget⟩ | ⟨hnc, hget⟩
      · exact Or.inl ⟨b2, by simp [hb2], hle, hlt, hget⟩
      · rw [setRange_get? hs i] at hget
        by_cases hin : b.start_face ≤ i ∧ i < b.start_face + b.num_faces
        · rw [if_pos hin] at hget
          exact Or.inl ⟨b, by simp, hin.1, hin.2, hget⟩
        · rw [if_neg hin] at hget
          refine Or.inr ⟨?_, hget⟩
          intro b2 hb2
          cases hb2 with
          | head => exact hin
          | tail _ hmem => exact hnc b2 hmem

theorem getD_eq_of_get? {α : Type} {l : List α} {i : Nat} {a : α} (d : α)
    (h : l.get? i = some a) : l.getD i d = a := by
  have hlt := get?_some_lt h
  have := get?_eq_getD d hlt
  rw [this] at h
  exact Option.some_inj.mp h

theorem eq_ofNat_iff_toNat {nb : Int} {c : Nat} (h : 0 ≤ nb) :
    nb = Int.ofNat c ↔ nb.toNat = c := by
  constructor
  · intro hh
    subst hh
    simp
  · intro hh
    subst hh
    simp [Int.toNat_of_nonneg h]

theorem ownerContrib_cons (o : Nat) (rest : List Nat) (i c : Nat) :
    ownerContrib (o :: rest) i c = (if o = c then [i] else []) ++ ownerContrib rest (i + 1) c := rfl

theorem cfContrib_cons (nb : Int) (rest : List Int) (i c : Nat) :
    cfContrib (nb :: rest) i c =
      (if nb = Int.ofNat c then [i] else []) ++ cfContrib rest (i + 1) c := rfl

theorem cnContrib_cons (owners : List Nat) (nb : Int) (rest : List Int) (i c : Nat) :
    cnContrib owners (nb :: rest) i c =
      ((if nb = Int.ofNat c then [Int.ofNat (owners.getD i 0)] else []) ++
        (if owners.getD i 0 = c then [nb] else [])) ++ cnContrib owners rest (i + 1) c := rfl

theorem ownerLoop_length {cf cf2 : List (List Nat)} {rest : List Nat} {i : Nat}
    (h : ownerLoop cf rest i = some cf2) : cf2.length = cf.length := by
  induction rest generalizing cf i with
  | nil => unfold ownerLoop at h; cases h; rfl
  | cons o rs ih =>
    unfold ownerLoop at h
    rw [Option.bind_eq_some] at h
    obtain ⟨cfm, hp, h⟩ := h
    rw [ih h, pushAt_length hp]

theorem ownerLoop_some_of {cf : List (List Nat)} {rest : List Nat} {i : Nat}
    (h : ∀ o ∈ rest, o < cf.length) : ∃ cf2, ownerLoop cf rest i = some cf2 := by
  induction rest generalizing cf i with
  | nil => exact ⟨cf, rfl⟩
  | cons o rs ih =>
    obtain ⟨cfm, hp⟩ := pushAt_some_of_lt i (h o (by simp))
    unfold ownerLoop
    rw [hp, Option.some_bind]
    apply ih
    intro o2 ho2
    rw [pushAt_length hp]
    exact h o2 (by simp [ho2])

theorem ownerLoop_get? {cf cf2 : List (List Nat)} {rest : List Nat} {i : Nat}
    (h : ownerLoop cf rest i = some cf2) (c : Nat) :
    cf2.get? c = (cf.get? c).map (· ++ ownerContrib rest i c) := by
  induction rest generalizing cf i c with
  | nil =>
    unfold ownerLoop at h
    cases h
    simp [ownerContrib]
  | cons o rs ih =>
    unfold ownerLoop at h
    rw [Option.bind_eq_some] at h
    obtain ⟨cfm, hp, h⟩ := h
    rw [ih h c, pushAt_get? hp c, ownerContrib_cons]
    by_cases hc : c = o
    · subst hc
      rw [if_pos rfl, if_pos rfl]
      cases cf.get? c <;> simp
    · rw [if_neg hc, if_neg (fun hh => hc (Eq.symm hh))]
      cases cf.get? c <;> simp

theorem neighborLoop_props {owners : List Nat} {cf : List (List Nat)}
    {cn : List (List Int)} {rest : List Int} {i : Nat}
    {p : List (List Nat) × List (List Int)}
    (h : neighborLoop owners cf cn rest i = some p) :
    p.1.length = cf.length ∧ p.2.length = cn.length ∧
    (∀ c, p.1.get? c = (cf.get? c).map (· ++ cfContrib rest i c)) ∧
    (∀ c, p.2.get? c = (cn.get? c).map (· ++ cnContrib owners rest i c)) := by
  induction rest generalizing cf cn i with
  | nil =>
    unfold neighborLoop at h
    cases h
    refine ⟨rfl, rfl, ?_, ?_⟩ <;> intro c <;> simp [cfContrib, cnContrib]
  | cons nb rs ih =>
    unfold neighborLoop at h
    by_cases hnb : 0 ≤ nb
    · rw [if_pos hnb] at h
      simp only [Option.bind_eq_some] at h
      obtain ⟨cf2, hp1, oi, hoi, cn2, hp2, cn3, hp3, h⟩ := h
      obtain ⟨hl1, hl2, hg1, hg2⟩ := ih h
      have hoid : owners.getD i 0 = oi := getD_eq_of_get? 0 hoi
      refine ⟨by rw [hl1, pushAt_length hp1],
        by rw [hl2, pushAt_length hp3, pushAt_length hp2], ?_, ?_⟩
      · intro c
        rw [hg1 c, pushAt_get? hp1 c, cfContrib_cons]
        by_cases hc : c = nb.toNat
        · rw [if_pos hc, if_pos ((eq_ofNat_iff_toNat hnb).mpr hc.symm)]
          cases cf.get? c <;> simp
        · rw [if_neg hc, if_neg (fun hh => hc (((eq_ofNat_iff_toNat hnb).mp hh).symm))]
          cases cf.get? c <;> simp
      · intro c
        rw [hg2 c, pushAt_get? hp3 c, pushAt_get? hp2 c, cnContrib_cons, hoid]
        by_cases hc1 : c = oi <;> by_cases hc2 : c = nb.toNat
        · rw [if_pos hc1, if_pos hc2,
            if_pos ((eq_ofNat_iff_toNat hnb).mpr hc2.symm), if_pos hc1.symm]
          cases cn.get? c <;> simp
        · rw [if_pos hc1, if_neg hc2,
            if_neg (fun hh => hc2 (((eq_ofNat_iff_toNat hnb).mp hh).symm)),
            if_pos hc1.symm]
          cases cn.get? c <;> simp
        · rw [if_neg hc1, if_pos hc2,
            if_pos ((eq_ofNat_iff_toNat hnb).mpr hc2.symm),
            if_neg (fun hh => hc1 (Eq.symm hh))]
          cases cn.get? c <;> simp
        · rw [if_neg hc1, if_neg hc2,
            if_neg (fun hh => hc2 (((eq_ofNat_iff_toNat hnb).mp hh).symm)),
            if_neg (fun hh => hc1 (Eq.symm hh))]
          cases cn.get? c <;> simp
    · rw [if_neg hnb] at h
      simp only [Option.bind_eq_some] at h
      obtain ⟨oi, hoi, cn2, hp2, h⟩ := h
      obtain ⟨hl1, hl2, hg1, hg2⟩ := ih h
      have hoid : owners.getD i 0 = oi := getD_eq_of_get? 0 hoi
      have hne : ∀ c : Nat, ¬(nb = Int.ofNat c) := by
        intro c hh
        rw [hh] at hnb
        exact hnb (Int.ofNat_nonneg c)
      refine ⟨by rw [hl1], by rw [hl2, pushAt_length hp2], ?_, ?_⟩
      · intro c
        rw [hg1 c, cfContrib_cons, if_neg (hne c)]
        cases cf.get? c <;> simp
      · intro c
        rw [hg2 c, pushAt_get? hp2 c, cnContrib_cons, hoid, if_neg (hne c)]
        by_cases hc1 : c = oi
        · rw [if_pos hc1, if_pos hc1.symm]
          cases cn.get? c <;> simp
        · rw [if_neg hc1, if_neg (fun hh => hc1 (Eq.symm hh))]
          cases cn.get? c <;> simp

theorem neighborLoop_some_of {owners : List Nat} {cf : List (List Nat)}
    {cn : List (List Int)} {rest : List Int} {i : Nat}
    (hL : cf.length = cn.length)
    (ho : ∀ j, j < rest.length → ∃ oi, owners.get? (i + j) = some oi ∧ oi < cn.length)
    (hn : ∀ x ∈ rest, 0 ≤ x → x.toNat < cn.length) :
    ∃ p, neighborLoop owners cf cn rest i = some p := by
  induction rest generalizing cf cn i with
  | nil => exact ⟨(cf, cn), rfl⟩
  | cons nb rs ih =>
    obtain ⟨oi, hoi, hoilt⟩ := by
      have h0 := ho 0 (by simp)
      simp only [Nat.add_zero] at h0
      exact h0
    by_cases hnb : 0 ≤ nb
    · have htn : nb.toNat < cn.length := hn nb (by simp) hnb
      obtain ⟨cf2, hp1⟩ := pushAt_some_of_lt i (show nb.toNat < cf.length by omega)
      obtain ⟨cn2, hp2⟩ := pushAt_some_of_lt (Int.ofNat oi) htn
      obtain ⟨cn3, hp3⟩ := pushAt_some_of_lt nb
        (show oi < cn2.length by rw [pushAt_length hp2]; exact hoilt)
      have hrec : ∃ p, neighborLoop owners cf2 cn3 rs (i + 1) = some p := by
        apply ih
        · rw [pushAt_length hp1, pushAt_length hp3, pushAt_length hp2, hL]
        · intro j hj
          obtain ⟨oj, hoj, hojlt⟩ := ho (j + 1) (by simp; omega)
          refine ⟨oj, ?_, ?_⟩
          · rw [show i + 1 + j = i + (j + 1) by omega]
            exact hoj
          · rw [pushAt_length hp3, pushAt_length hp2]
            exact hojlt
        · intro x hx hxpos
          rw [pushAt_length hp3, pushAt_length hp2]
          exact hn x (by simp [hx]) hxpos
      obtain ⟨p, hp⟩ := hrec
      refine ⟨p, ?_⟩
      unfold neighborLoop
      rw [if_pos hnb, hp1, Option.some_bind, hoi, Option.some_bind, hp2,
        Option.some_bind, hp3, Option.some_bind]
      exact hp
    · obtain ⟨cn2, hp2⟩ := pushAt_some_of_lt nb hoilt
      have hrec : ∃ p, neighborLoop owners cf cn2 rs (i + 1) = some p := by
        apply ih
        · rw [pushAt_length hp2, hL]
        · intro j hj
          obtain ⟨oj, hoj, hojlt⟩ := ho (j + 1) (by simp; omega)
          refine ⟨oj, ?_, ?_⟩
          · rw [show i + 1 + j = i + (j + 1) by omega]
            exact hoj
          · rw [pushAt_length hp2]
            exact hojlt
        · intro x hx hxpos
          rw [pushAt_length hp2]
          exact hn x (by simp [hx]) hxpos
      obtain ⟨p, hp⟩ := hrec
      refine ⟨p, ?_⟩
      unfold neighborLoop
      rw [if_neg hnb, hoi, Option.some_bind, hp2, Option.some_bind]
      exact hp

theorem construct_char {bnd : List (String × Boundary)} {faces : List (List Nat)}
    {owners : List Nat} {nbrs : List Int} {m : FoamMesh}
    (h : FoamMesh.construct bnd faces owners nbrs = some m) :
    ∃ nc mx nbrs2 cf1 p,
      maxNat? owners = some nc ∧
      nbrs.length ≤ owners.length ∧
      applyPatches (nbrs ++ List.replicate (owners.length - nbrs.length) (-10))
        (bnd.map Prod.snd) = some nbrs2 ∧
      maxInt? nbrs2 = some mx ∧
      ownerLoop (List.replicate ((max (Int.ofNat nc) mx).toNat + 1) []) owners 0 = some cf1 ∧
      neighborLoop owners cf1
        (List.replicate ((max (Int.ofNat nc) mx).toNat + 1) []) nbrs2 0 = some p ∧
      m = ⟨bnd, faces, p.1, owners, nbrs2, p.2, nbrs.length, nc⟩ := by
  unfold FoamMesh.construct at h
  simp only [Option.bind_eq_some, Option.map_eq_some'] at h
  obtain ⟨nc, hnc, h⟩ := h
  split at h
  case isTrue hlen =>
    simp only [Option.bind_eq_some, Option.map_eq_some'] at h
    obtain ⟨nbrs2, hnp, mx, hmx, cf1, hol, p, hnl, hm⟩ := h
    exact ⟨nc, mx, nbrs2, cf1, p, hnc, hlen, hnp, hmx, hol, hnl, hm.symm⟩
  case isFalse => cases h

theorem get?_replicate_nil {α : Type} (n c : Nat) :
    (List.replicate n ([] : List α)).get? c = if c < n then some [] else none := by
  simp [List.get?_eq_getElem?, List.getElem?_replicate]

theorem ownerContrib_length_eq : ∀ (ol : List Nat) (i j c : Nat),
    (ownerContrib ol i c).length = (ownerContrib ol j c).length := by
  intro ol
  induction ol with
  | nil => intro i j c; rfl
  | cons o rest ih =>
    intro i j c
    rw [ownerContrib_cons, ownerContrib_cons]
    simp only [List.length_append]
    rw [ih (i + 1) (j + 1) c]
    by_cases hoc : o = c <;> simp [hoc]

theorem cnContrib_length (owners : List Nat) : ∀ (nbrs : List Int) (i c : Nat),
    i + nbrs.length ≤ owners.length →
    (cnContrib owners nbrs i c).length =
      (cfContrib nbrs i c).length +
        (ownerContrib ((owners.drop i).take nbrs.length) i c).length := by
  intro nbrs
  induction nbrs with
  | nil => intro i c _; simp [cnContrib, cfContrib, ownerContrib]
  | cons nb rs ih =>
    intro i c hb
    have hlt : i < owners.length := by simp at hb; omega
    have hdrop : owners.drop i = owners.getD i 0 :: owners.drop (i + 1) := by
      rw [List.drop_eq_getElem_cons hlt, List.getD_eq_getElem owners 0 hlt]
    rw [cnContrib_cons, cfContrib_cons, hdrop]
    show _ = _ + (ownerContrib (owners.getD i 0 :: (owners.drop (i + 1)).take rs.length) i c).length
    rw [ownerContrib_cons]
    have ihr := ih (i + 1) c (by simp at hb ⊢; omega)
    simp only [List.length_append]
    rw [ihr]
    by_cases h1 : nb = Int.ofNat c <;> by_cases h2 : owners.getD i 0 = c
    · simp only [if_pos h1, if_pos h2]
      simp
      try omega
    · simp only [if_pos h1, if_neg h2]
      simp
      try omega
    · simp only [if_neg h1, if_pos h2]
      simp
      try omega
    · simp only [if_neg h1, if_neg h2]
      simp
      try omega

theorem cnContrib_mem_owner (owners : List Nat) : ∀ (nbrs : List Int) (j i : Nat)
    (v : Int) (c : Nat), nbrs.get? j = some v → owners.getD (i + j) 0 = c →
    v ∈ cnContrib owners nbrs i c := by
  intro nbrs
  induction nbrs with
  | nil => intro j i v c hj _; cases j <;> cases hj
  | cons nb rs ih =>
    intro j i v c hj hc
    cases j with
    | zero =>
      cases hj
      rw [Nat.add_zero] at hc
      rw [cnContrib_cons, hc, if_pos rfl]
      simp
    | succ j2 =>
      rw [cnContrib_cons]
      simp only [List.mem_append]
      right
      apply ih j2 (i + 1) v c hj
      rw [show i + 1 + j2 = i + (j2 + 1) by omega]
      exact hc

theorem cnContrib_mem_nbr (owners : List Nat) : ∀ (nbrs : List Int) (j i c : Nat),
    nbrs.get? j = some (Int.ofNat c) →
    Int.ofNat (owners.getD (i + j) 0) ∈ cnContrib owners nbrs i c := by
  intro nbrs
  induction nbrs with
  | nil => intro j i c hj; cases j <;> cases hj
  | cons nb rs ih =>
    intro j i c hj
    cases j with
    | zero =>
      cases hj
      rw [Nat.add_zero, cnContrib_cons, if_pos rfl]
      simp
    | succ j2 =>
      rw [cnContrib_cons]
      simp only [List.mem_append]
      right
      have := ih j2 (i + 1) c hj
      rw [show i + 1 + j2 = i + (j2 + 1) by omega] at this
      exact this

theorem cnContrib_mem_inv (owners : List Nat) : ∀ (nbrs : List Int) (i c : Nat)
    (x : Int), x ∈ cnContrib owners nbrs i c →
    (∃ j, j < nbrs.length ∧ nbrs.get? j = some (Int.ofNat c) ∧
      x = Int.ofNat (owners.getD (i + j) 0)) ∨
    (∃ j, j < nbrs.length ∧ nbrs.get? j = some x ∧ owners.getD (i + j) 0 = c) := by
  intro nbrs
  induction nbrs with
  | nil => intro i c x hx; cases hx
  | cons nb rs ih =>
    intro i c x hx
    rw [cnContrib_cons] at hx
    simp only [List.mem_append] at hx
    rcases hx with (hx | hx) | hx
    · by_cases h1 : nb = Int.ofNat c
      · rw [if_pos h1] at hx
        rw [List.mem_singleton] at hx
        refine Or.inl ⟨0, by simp, by rw [h1]; rfl, ?_⟩
        rw [Nat.add_zero]
        exact hx
      · rw [if_neg h1] at hx
        cases hx
    · by_cases h2 : owners.getD i 0 = c
      · rw [if_pos h2] at hx
        rw [List.mem_singleton] at hx
        refine Or.inr ⟨0, by simp, by rw [hx]; rfl, ?_⟩
        rw [Nat.add_zero]
        exact h2
      · rw [if_neg h2] at hx
        cases hx
    · rcases ih (i + 1) c x hx with ⟨j, hj, hv, he⟩ | ⟨j, hj, hv, he⟩
      · refine Or.inl ⟨j + 1, by simp; omega, by simpa using hv, ?_⟩
        rw [show i + (j + 1) = i + 1 + j by omega]
        exact he
      · refine Or.inr ⟨j + 1, by simp; omega, by simpa using hv, ?_⟩
        rw [show i + (j + 1) = i + 1 + j by omega]
        exact he

theorem getD_none {α : Type} {l : List α} {c : Nat} (d : α)
    (h : l.get? c = none) : l.getD c d = d := by
  unfold List.getD
  rw [h]
  rfl

/-- Claim C10: the in-memory phase of FoamMesh::new returns a value,
rather than panicking, exactly under three implicit preconditions: the
parsed owner list is non-empty (else the unwrap at src/lib.rs 120
panics), the parsed neighbour list is no longer than the owner list
(else the extension at line 123 underflows), and every patch's face
range lies within the owner list (else the write at line 126 indexes
out of bounds); under these, every later array access is in bounds. -/
theorem c10_construct_totality (bnd : List (String × Boundary))
    (faces : List (List Nat)) (owners : List Nat) (nbrs : List Int) :
    (FoamMesh.construct bnd faces owners nbrs).isSome = true ↔
      (owners ≠ [] ∧ nbrs.length ≤ owners.length ∧
        ∀ b ∈ bnd.map Prod.snd, ∀ i, b.start_face ≤ i →
          i < b.start_face + b.num_faces → i < owners.length) := by
  constructor
  · intro h
    obtain ⟨m, hm⟩ := Option.isSome_iff_exists.mp h
    obtain ⟨nc, mx, nbrs2, cf1, p, hnc, hlen, hnp, hmx, hol, hnl, hmm⟩ := construct_char hm
    refine ⟨?_, hlen, ?_⟩
    · intro he
      subst he
      simp [maxNat?] at hnc
    · intro b hb i hle hlt
      have hr := applyPatches_ranges hnp b hb
      have hext : (nbrs ++ List.replicate (owners.length - nbrs.length)
          (-10 : Int)).length = owners.length := by
        simp
        omega
      rw [hext] at hr
      omega
  · rintro ⟨hne, hlen, hcov⟩
    obtain ⟨nc, hnc⟩ := maxNat?_isSome hne
    have hext : (nbrs ++ List.replicate (owners.length - nbrs.length)
        (-10 : Int)).length = owners.length := by
      simp
      omega
    obtain ⟨nbrs2, hnp⟩ := applyPatches_some_of
      (show ∀ b ∈ bnd.map Prod.snd, b.start_face + b.num_faces ≤
          (nbrs ++ List.replicate (owners.length - nbrs.length) (-10 : Int)).length ∨
          b.num_faces = 0 by
        intro b hb
        by_cases hz : b.num_faces = 0
        · right; exact hz
        · left
          rw [hext]
          have := hcov b hb (b.start_face + b.num_faces - 1) (by omega) (by omega)
          omega)
    have hn2len : nbrs2.length = owners.length := by
      rw [applyPatches_length hnp, hext]
    have hnz : nbrs2 ≠ [] := by
      intro hh
      rw [hh] at hn2len
      simp at hn2len
      exact hne (List.length_eq_zero.mp hn2len.symm)
    obtain ⟨mx, hmx⟩ := maxInt?_isSome hnz
    have hnclt : nc < (max (Int.ofNat nc) mx).toNat + 1 := by
      have h1 : (Int.ofNat nc) ≤ max (Int.ofNat nc) mx := le_max_left _ _
      have h2 : nc ≤ (max (Int.ofNat nc) mx).toNat := Int.toNat_le_toNat h1
      omega
    obtain ⟨cf1, hol⟩ := @ownerLoop_some_of
      (List.replicate ((max (Int.ofNat nc) mx).toNat + 1) []) owners 0
      (by
        intro o ho
        rw [List.length_replicate]
        have := maxNat?_le hnc o ho
        omega)
    obtain ⟨p, hnl⟩ := @neighborLoop_some_of owners cf1
      (List.replicate ((max (Int.ofNat nc) mx).toNat + 1) []) nbrs2 0
      (by rw [ownerLoop_length hol, List.length_replicate, List.length_replicate])
      (by
        intro j hj
        rw [hn2len] at hj
        have hgj := get?_eq_getD 0 hj
        refine ⟨owners.getD j 0, ?_, ?_⟩
        · rw [Nat.zero_add]
          exact hgj
        · rw [List.length_replicate]
          have hmem := List.get?_mem hgj
          have := maxNat?_le hnc _ hmem
          omega)
      (by
        intro x hx hxnn
        rw [List.length_replicate]
        have hle := maxInt?_le hmx x hx
        have h1 := Int.toNat_le_toNat hle
        have h2 := Int.toNat_le_toNat (le_max_right (Int.ofNat nc) mx)
        omega)
    apply Option.isSome_iff_exists.mpr
    refine ⟨⟨bnd, faces, p.1, owners, nbrs2, p.2, nbrs.length, nc⟩, ?_⟩
    unfold FoamMesh.construct
    rw [hnc, Option.some_bind, if_pos hlen, hnp, Option.some_bind, hmx,
      Option.some_bind, hol, Option.some_bind, hnl]
    rfl

/-- Claim C1 (counterexample): on the successfully constructed mesh with
owners [0, 1, 1] and raw neighbours [1], the accessor num_cells returns
1, the maximum owner index, and not max(owners) + 1 = 2 as claimed. -/
theorem c1_counterexample :
    (FoamMesh.construct [] [] [0, 1, 1] [1]).map FoamMesh.num_cells = some 1 ∧
    (FoamMesh.construct [] [] [0, 1, 1] [1]).map FoamMesh.num_cells ≠ some (1 + 1) := by
  constructor
  · rfl
  · decide

/-- Claim C1 (amended): for every successfully constructed mesh, the
value returned by the accessor num_cells() equals max(owners), the
maximum of the parsed owner array, without the + 1 of the original
claim (src/lib.rs 120 stores the unwrapped maximum directly). -/
theorem c1_num_cells (bnd : List (String × Boundary)) (faces : List (List Nat))
    (owners : List Nat) (nbrs : List Int) (m : FoamMesh)
    (h : FoamMesh.construct bnd faces owners nbrs = some m) :
    maxNat? owners = some m.num_cells := by
  obtain ⟨nc, mx, nbrs2, cf1, p, hnc, hlen, hnp, hmx, hol, hnl, hmm⟩ := construct_char h
  subst hmm
  exact hnc

/-- Witness for claim C1 at the concrete mesh meshW. -/
theorem c1_num_cells_witness : maxNat? [0, 1] = some (meshW.num_cells) :=
  c1_num_cells [("w", ⟨"wall", 1, 1, -10⟩)] [[0], [1]] [0, 1] [1] meshW (by rfl)

/-- Claim C2 (counterexample): constructing from no patches, one face and
one owner leaves the -10 placeholder in cell_neighbors[0]; that entry is
neither a valid non-negative cell index nor any patch's boundary_id, so
the classification part of the claim fails on this mesh. -/
theorem c2_counterexample :
    (FoamMesh.construct [] [] [0] []).map FoamMesh.cell_neighbors = some [[-10]] ∧
    entryOk [] 1 (-10) = false := by
  constructor
  · rfl
  · decide

/-- Claim C2 (amended): for every successfully constructed mesh,
cell_faces[c] and cell_neighbors[c] have the same length for every c,
and the internal-face adjacency is symmetric; every cell_neighbors entry
is a valid non-negative cell index or some patch's boundary_id provided
additionally that every raw neighbour entry is non-negative and that
every face index at or beyond the raw neighbour count lies in some
patch's range (without these, uncovered faces keep the -10 placeholder,
which is no patch's boundary_id). -/
theorem c2_adjacency (bnd : List (String × Boundary)) (faces : List (List Nat))
    (owners : List Nat) (nbrs : List Int) (m : FoamMesh)
    (h : FoamMesh.construct bnd faces owners nbrs = some m) :
    c2Prop bnd owners nbrs m := by
  obtain ⟨nc, mx, nbrs2, cf1, p, hnc, hlen, hnp, hmx, hol, hnl, hmm⟩ := construct_char h
  obtain ⟨hL1, hL2, hG1, hG2⟩ := neighborLoop_props hnl
  have hext : (nbrs ++ List.replicate (owners.length - nbrs.length)
      (-10 : Int)).length = owners.length := by
    simp
    omega
  have hn2len : nbrs2.length = owners.length := by
    rw [applyPatches_length hnp, hext]
  have hcf1len : cf1.length = (max (Int.ofNat nc) mx).toNat + 1 := by
    rw [ownerLoop_length hol, List.length_replicate]
  have hp1len : p.1.length = (max (Int.ofNat nc) mx).toNat + 1 := by
    rw [hL1, hcf1len]
  have hp2len : p.2.length = (max (Int.ofNat nc) mx).toNat + 1 := by
    rw [hL2, List.length_replicate]
  have hCF : ∀ c, c < (max (Int.ofNat nc) mx).toNat + 1 →
      p.1.get? c = some (ownerContrib owners 0 c ++ cfContrib nbrs2 0 c) := by
    intro c hc
    rw [hG1 c, ownerLoop_get? hol c, get?_replicate_nil, if_pos hc]
    simp
  have hCN : ∀ c, c < (max (Int.ofNat nc) mx).toNat + 1 →
      p.2.get? c = some (cnContrib owners nbrs2 0 c) := by
    intro c hc
    rw [hG2 c, get?_replicate_nil, if_pos hc]
    simp
  have hmcf : m.cell_faces = p.1 := by rw [hmm]
  have hmcn : m.cell_neighbors = p.2 := by rw [hmm]
  have hmn : m.neighbors = nbrs2 := by rw [hmm]
  have hmo : m.owners = owners := by rw [hmm]
  have hncmax : nc ≤ (max (Int.ofNat nc) mx).toNat := by
    have h2 := Int.toNat_le_toNat (le_max_left (Int.ofNat nc) mx)
    simpa using h2
  refine ⟨?_, ?_, ?_⟩
  · intro c
    rw [hmcf, hmcn]
    by_cases hc : c < (max (Int.ofNat nc) mx).toNat + 1
    · rw [getD_eq_of_get? [] (hCF c hc), getD_eq_of_get? [] (hCN c hc)]
      have hcl := cnContrib_length owners nbrs2 0 c (by omega)
      rw [List.drop_zero, hn2len, List.take_length] at hcl
      rw [List.length_append, hcl]
      omega
    · rw [getD_none [] (List.get?_eq_none.mpr (show p.1.length ≤ c by omega)),
        getD_none [] (List.get?_eq_none.mpr (show p.2.length ≤ c by omega))]
      rfl
  · intro f v hfv hvnn
    rw [hmn] at hfv
    rw [hmo, hmcn]
    have hflt : f < nbrs2.length := get?_some_lt hfv
    have hfo : f < owners.length := by omega
    have hofg : owners.get? f = some (owners.getD f 0) := get?_eq_getD 0 hfo
    have hoval := maxNat?_le hnc _ (List.get?_mem hofg)
    have hoflt : owners.getD f 0 < (max (Int.ofNat nc) mx).toNat + 1 := by omega
    have hvlt : v.toNat < (max (Int.ofNat nc) mx).toNat + 1 := by
      have hle := maxInt?_le hmx v (List.get?_mem hfv)
      have h1 := Int.toNat_le_toNat hle
      have h2 := Int.toNat_le_toNat (le_max_right (Int.ofNat nc) mx)
      omega
    constructor
    · rw [getD_eq_of_get? [] (hCN _ hoflt)]
      exact cnContrib_mem_owner owners nbrs2 f 0 v _ hfv (by rw [Nat.zero_add])
    · rw [getD_eq_of_get? [] (hCN _ hvlt)]
      have hv2 : nbrs2.get? f = some (Int.ofNat v.toNat) := by
        rw [hfv]
        congr 1
        exact (eq_ofNat_iff_toNat hvnn).mpr rfl
      have hres := cnContrib_mem_nbr owners nbrs2 f 0 v.toNat hv2
      rw [Nat.zero_add] at hres
      exact hres
  · intro hnn hcov c x hx
    rw [hmcn] at hx
    rw [hmcn, hp2len]
    by_cases hc : c < (max (Int.ofNat nc) mx).toNat + 1
    case neg =>
      rw [getD_none [] (List.get?_eq_none.mpr (show p.2.length ≤ c by omega))] at hx
      cases hx
    case pos =>
      rw [getD_eq_of_get? [] (hCN c hc)] at hx
      rcases cnContrib_mem_inv owners nbrs2 0 c x hx with
        ⟨j, hj, hjv, hxe⟩ | ⟨j, hj, hjv, hje⟩
      · rw [Nat.zero_add] at hxe
        have hjo : j < owners.length := by omega
        have hog : owners.get? j = some (owners.getD j 0) := get?_eq_getD 0 hjo
        have hub := maxNat?_le hnc _ (List.get?_mem hog)
        subst hxe
        have hgen : ∀ ov : Nat, ov ≤ nc →
            entryOk (bnd.map Prod.snd) ((max (Int.ofNat nc) mx).toNat + 1)
              (Int.ofNat ov) = true := by
          intro ov hov
          simp [entryOk]
          left
          omega
        exact hgen _ hub
      · rw [Nat.zero_add] at hje
        rcases applyPatches_get? hnp j with ⟨b, hb, hble, hblt, hbg⟩ | ⟨hnocov, hbg⟩
        · rw [hjv] at hbg
          have hxb : x = b.boundary_id := Option.some_inj.mp hbg
          have hany : ((bnd.map Prod.snd).any fun b2 => x == b2.boundary_id) = true := by
            rw [List.any_eq_true]
            refine ⟨b, hb, ?_⟩
            rw [hxb]
            simp
          simp [entryOk, hany]
        · rw [hjv] at hbg
          by_cases hjr : j < nbrs.length
          · rw [List.get?_append hjr] at hbg
            have hxnn := hnn x (List.get?_mem hbg.symm)
            have hxle := maxInt?_le hmx x (List.get?_mem hjv)
            have h1 := Int.toNat_le_toNat hxle
            have h2 := Int.toNat_le_toNat (le_max_right (Int.ofNat nc) mx)
            simp [entryOk]
            left
            exact ⟨hxnn, by omega⟩
          · have hcj := hcov j (by omega) (by omega)
            simp only [inAnyPatch, List.any_eq_true, Bool.and_eq_true,
              decide_eq_true_eq] at hcj
            obtain ⟨b, hb, hb1, hb2⟩ := hcj
            exact absurd (show b.start_face ≤ j ∧ j < b.start_face + b.num_faces
              from ⟨hb1, hb2⟩) (hnocov b hb)

/-- Witness for claim C2 at the concrete mesh meshW. -/
theorem c2_adjacency_witness :
    c2Prop [("w", ⟨"wall", 1, 1, -10⟩)] [0, 1] [1] meshW :=
  c2_adjacency [("w", ⟨"wall", 1, 1, -10⟩)] [[0], [1]] [0, 1] [1] meshW (by rfl)

/-- Claim C4 (counterexample): on the mesh constructed from no patches,
one face and one owner, face 0 lies in no patch range, yet
is_face_on_boundary(0, None) returns true, because the untouched -10
placeholder is negative; so the range characterization fails. -/
theorem c4_counterexample :
    FoamMesh.construct [] [[1, 2, 3]] [0] [] = some meshNoPatch ∧
    meshNoPatch.is_face_on_boundary 0 none = some true ∧
    inAnyPatch [] 0 = false := by
  refine ⟨by rfl, by rfl, by rfl⟩

/-- Claim C4 (amended): on a constructed mesh whose faces list has the
same length as its owner list, whose raw neighbour entries are
non-negative, whose patches have negative boundary_id values (as
parse_boundary assigns) and cover every face index at or beyond the raw
neighbour count, is_face_on_boundary without a patch name decides
membership of the face id in some patch range, and with a patch name it
compares the face's neighbor entry against that patch's boundary_id,
returning false for an unknown name or an out-of-range face id. -/
theorem c4_face_on_boundary (bnd : List (String × Boundary))
    (faces : List (List Nat)) (owners : List Nat) (nbrs : List Int) (m : FoamMesh)
    (h : FoamMesh.construct bnd faces owners nbrs = some m)
    (hflen : faces.length = owners.length)
    (hbid : ∀ b ∈ bnd.map Prod.snd, b.boundary_id < 0)
    (hnn : ∀ x ∈ nbrs, 0 ≤ x)
    (hcov : ∀ i, nbrs.length ≤ i → i < owners.length →
      inAnyPatch (bnd.map Prod.snd) i = true) :
    c4Prop bnd faces m := by
  obtain ⟨nc, mx, nbrs2, cf1, p, hnc, hlen, hnp, hmx, hol, hnl, hmm⟩ := construct_char h
  have hext : (nbrs ++ List.replicate (owners.length - nbrs.length)
      (-10 : Int)).length = owners.length := by
    simp
    omega
  have hn2len : nbrs2.length = owners.length := by
    rw [applyPatches_length hnp, hext]
  have hmf : m.faces = faces := by rw [hmm]
  have hmb : m.boundary = bnd := by rw [hmm]
  have hmn : m.neighbors = nbrs2 := by rw [hmm]
  constructor
  · intro f
    unfold FoamMesh.is_face_on_boundary
    rw [hmf, hmn]
    by_cases hf : faces.length ≤ f
    · rw [if_pos hf]
      cases hap : inAnyPatch (bnd.map Prod.snd) f
      · rfl
      · exfalso
        simp only [inAnyPatch, List.any_eq_true, Bool.and_eq_true,
          decide_eq_true_eq] at hap
        obtain ⟨b, hb, h1, h2⟩ := hap
        have hr := applyPatches_ranges hnp b hb
        rw [hext] at hr
        omega
    · rw [if_neg hf]
      have hf2 : f < nbrs2.length := by omega
      rw [get?_eq_getD 0 hf2, Option.map_some', Option.some_inj]
      cases hap : inAnyPatch (bnd.map Prod.snd) f
      · rcases applyPatches_get? hnp f with ⟨b, hb, hble, hblt, hbg⟩ | ⟨hnocov, hbg⟩
        · exfalso
          have hq : inAnyPatch (bnd.map Prod.snd) f = true := by
            simp only [inAnyPatch, List.any_eq_true, Bool.and_eq_true,
              decide_eq_true_eq]
            exact ⟨b, hb, hble, hblt⟩
          rw [hap] at hq
          cases hq
        · by_cases hjr : f < nbrs.length
          · rw [List.get?_append hjr] at hbg
            have hsome : nbrs.get? f = some (nbrs2.getD f 0) := by
              rw [← hbg]
              exact get?_eq_getD 0 hf2
            have h0 := hnn _ (List.get?_mem hsome)
            apply decide_eq_false
            omega
          · exfalso
            have hct := hcov f (by omega) (by omega)
            rw [hap] at hct
            cases hct
      · rcases applyPatches_get? hnp f with ⟨b, hb, hble, hblt, hbg⟩ | ⟨hnocov, hbg⟩
        · have hvb : nbrs2.getD f 0 = b.boundary_id := by
            have hgd := get?_eq_getD (0 : Int) hf2
            rw [hgd] at hbg
            exact Option.some_inj.mp hbg
          rw [hvb]
          simp only [decide_eq_true_eq]
          exact hbid b hb
        · exfalso
          simp only [inAnyPatch, List.any_eq_true, Bool.and_eq_true,
            decide_eq_true_eq] at hap
          obtain ⟨b, hb, h1, h2⟩ := hap
          exact absurd ⟨h1, h2⟩ (hnocov b hb)
  · intro f name
    simp only [FoamMesh.is_face_on_boundary]
    rw [hmf, hmb, hmn]
    by_cases hf : faces.length ≤ f
    · rw [if_pos hf]
      have hd : decide (f < faces.length) = false := by
        simp
        omega
      rw [hd, Bool.false_and]
    · rw [if_neg hf]
      have hd : decide (f < faces.length) = true := by
        simp
        omega
      rw [hd, Bool.true_and]
      have hf2 : f < nbrs2.length := by omega
      cases hg : hmGet bnd name
      · rfl
      · rw [get?_eq_getD (0 : Int) hf2]
        rfl

/-- Witness for claim C4 at the concrete mesh meshW. -/
theorem c4_face_on_boundary_witness :
    c4Prop [("w", ⟨"wall", 1, 1, -10⟩)] [[0], [1]] meshW := by
  apply c4_face_on_boundary [("w", ⟨"wall", 1, 1, -10⟩)] [[0], [1]] [0, 1] [1] meshW
  · rfl
  · rfl
  · decide
  · decide
  · intro i h1 h2
    simp only [List.length_cons, List.length_nil] at h1 h2
    have hi : i = 1 := by omega
    subst hi
    decide

theorem scalarsLoop_cons_seek_none (pT : String → Option α) (l : String)
    (rest : List String) (data : List α) (h : parseNat? l = none) :
    scalarsLoop pT (l :: rest) data 0 = scalarsLoop pT rest data 0 := by
  conv_lhs => unfold scalarsLoop
  rw [if_neg (by omega), h]

theorem scalarsLoop_cons_seek_some (pT : String → Option α) (l : String)
    (rest : List String) (data : List α) (n : Nat) (h : parseNat? l = some n) :
    scalarsLoop pT (l :: rest) data 0 = scalarsLoop pT rest data n := by
  conv_lhs => unfold scalarsLoop
  rw [if_neg (by omega), h]

theorem scalarsLoop_seek (pT : String → Option α) (pre : List String)
    (hp : ∀ l ∈ pre, ∀ k, parseNat? l = some k → k = 0) (rest : List String) :
    scalarsLoop pT (pre ++ rest) [] 0 = scalarsLoop pT rest [] 0 := by
  induction pre with
  | nil => rfl
  | cons l ls ih =>
    rw [List.cons_append]
    cases hl : parseNat? l with
    | none =>
      rw [scalarsLoop_cons_seek_none pT l (ls ++ rest) [] hl]
      exact ih (fun l2 h2 => hp l2 (by simp [h2]))
    | some k =>
      have hk : k = 0 := hp l (by simp) k hl
      subst hk
      rw [scalarsLoop_cons_seek_some pT l (ls ++ rest) [] 0 hl]
      exact ih (fun l2 h2 => hp l2 (by simp [h2]))

theorem scalarsLoop_cons_pos_some (pT : String → Option α) {n : Nat} (hn : 0 < n)
    (l : String) (rest : List String) (data : List α) (v : α) (h : pT l = some v) :
    scalarsLoop pT (l :: rest) data n = scalarsLoop pT rest (data ++ [v]) n := by
  conv_lhs => unfold scalarsLoop
  rw [if_pos hn, h]

theorem scalarsLoop_cons_pos_none (pT : String → Option α) {n : Nat} (hn : 0 < n)
    (l : String) (rest : List String) (data : List α) (h : pT l = none) :
    scalarsLoop pT (l :: rest) data n = scalarsLoop pT rest data n := by
  conv_lhs => unfold scalarsLoop
  rw [if_pos hn, h]

theorem scalarsLoop_collect (pT : String → Option α) {n : Nat} (hn : 0 < n)
    (post : List String) : ∀ data,
    scalarsLoop pT post data n = (data ++ post.filterMap pT, n) := by
  induction post with
  | nil => intro data; simp [scalarsLoop]
  | cons l ls ih =>
    intro data
    cases hl : pT l with
    | some v =>
      rw [scalarsLoop_cons_pos_some pT hn l ls data v hl, ih (data ++ [v])]
      simp [List.filterMap_cons, hl]
    | none =>
      rw [scalarsLoop_cons_pos_none pT hn l ls data hl, ih data]
      simp [List.filterMap_cons, hl]

/-- Claim C5 (counterexample): the first line of this input parses as
the non-negative integer 0, so by the claim the declared count is N = 0
and the outcome must be a count-mismatch error; the code instead treats
a zero count as not yet having seen the count line, takes N from the
next integer line, and returns Ok with three elements. -/
theorem c5_counterexample :
    FoamMesh.parse_scalars parseNat? ["0", "3", "1", "2", "3"] 0 = .ok [1, 2, 3] := by
  rfl

/-- Claim C5 (amended): the declared count N of parse_scalars is taken
from the first line after the skipped prefix that parses as a positive
integer (lines parsing as 0 are passed over, since the loop state
cannot distinguish a declared zero count from no count); the call
returns Ok(data) with the elements parsed after that line exactly when
their number equals N, and a count-mismatch error carrying N and the
parsed count otherwise, with no partial result. -/
theorem c5_scalars_count (pT : String → Option α) (lines : List String)
    (skip : Nat) (pre : List String) (cnt : String) (post : List String) (n : Nat)
    (hsplit : lines.drop skip = pre ++ cnt :: post)
    (hpre : ∀ l ∈ pre, ∀ k, parseNat? l = some k → k = 0)
    (hcnt : parseNat? cnt = some n) (hn : 0 < n) :
    FoamMesh.parse_scalars pT lines skip =
      (if (post.filterMap pT).length = n then .ok (post.filterMap pT)
       else .err (.countMismatch n (post.filterMap pT).length)) := by
  unfold FoamMesh.parse_scalars
  show (if (scalarsLoop pT (lines.drop skip) [] 0).1.length ≠
      (scalarsLoop pT (lines.drop skip) [] 0).2 then
      PRes.err (.countMismatch (scalarsLoop pT (lines.drop skip) [] 0).2
        (scalarsLoop pT (lines.drop skip) [] 0).1.length)
    else .ok (scalarsLoop pT (lines.drop skip) [] 0).1) = _
  rw [hsplit, scalarsLoop_seek pT pre hpre (cnt :: post),
    scalarsLoop_cons_seek_some pT cnt post [] n hcnt,
    scalarsLoop_collect pT hn post []]
  simp only [List.nil_append]
  by_cases he : (post.filterMap pT).length = n
  · rw [if_neg (by simp [he]), if_pos he]
  · rw [if_pos (by simp [he]), if_neg he]

/-- Witness for claim C5: a two-element list with a matching declared
count parses to Ok. -/
theorem c5_scalars_count_witness :
    FoamMesh.parse_scalars parseNat? ["2", "5", "7"] 0 = .ok [5, 7] := by
  rw [c5_scalars_count parseNat? ["2", "5", "7"] 0 [] ("2") ["5", "7"] 2 rfl
    (by simp) (by decide) (by decide)]
  decide

theorem parseFacesLoop_data_cons (skip i n : Nat) (hn : 0 < n) (line : String)
    (rest : List String) (data : List (List Nat)) (k : Nat) (ts : List Nat)
    (hex : extractNums line = k :: ts) :
    parseFacesLoop skip (line :: rest) i n data =
      (if ts.length ≠ k then .err (.malformedFaces (skip + i) line)
       else parseFacesLoop skip rest (i + 1) n (data ++ [ts])) := by
  conv_lhs => unfold parseFacesLoop
  rw [if_pos hn, hex]

/-- Claim C6: inside the data section of a faces file (a positive
declared count has been seen), a line yielding the numeric tokens
k :: ts fails with a structural error naming the offending line number
skip + i unless ts has exactly k entries, in which case the face list
ts is appended, preserving the order of the tokens on the line; and the
file whose single face line is 4(1 42 1723 1682) parses to the single
face [1, 42, 1723, 1682]. -/
theorem c6_faces_line (skip i n : Nat) (hn : 0 < n) (line : String)
    (rest : List String) (data : List (List Nat)) (k : Nat) (ts : List Nat)
    (hex : extractNums line = k :: ts) :
    (ts.length ≠ k → parseFacesLoop skip (line :: rest) i n data =
      .err (.malformedFaces (skip + i) line)) ∧
    (ts.length = k → parseFacesLoop skip (line :: rest) i n data =
      parseFacesLoop skip rest (i + 1) n (data ++ [ts])) ∧
    FoamMesh.parse_faces ["1", "(", "4(1 42 1723 1682)", ")"] 0 =
      .ok [[1, 42, 1723, 1682]] := by
  refine ⟨?_, ?_, by rfl⟩
  · intro hne
    rw [parseFacesLoop_data_cons skip i n hn line rest data k ts hex, if_pos hne]
  · intro he
    rw [parseFacesLoop_data_cons skip i n hn line rest data k ts hex,
      if_neg (fun hc => hc he)]

/-- Witness for claim C6 at the claim's example line. -/
theorem c6_faces_line_witness :
    parseFacesLoop 0 [("4(1 42 1723 1682)")] 2 1 [] =
      parseFacesLoop 0 [] 3 1 [[1, 42, 1723, 1682]] := by
  have h := c6_faces_line 0 2 1 (by decide) ("4(1 42 1723 1682)") [] [] 4
    [1, 42, 1723, 1682] (by decide)
  exact h.2.1 (by decide)


theorem parseBoundaryLoop_halt (content : List String) (st : BState)
    (r : PRes (List (String × Boundary))) (h : boundaryStep content st = .halt r) :
    parseBoundaryLoop content st = r := by
  unfold parseBoundaryLoop
  split <;> simp_all

theorem parseBoundaryLoop_next (content : List String) (st st2 : BState)
    (h : boundaryStep content st = .next st2) :
    parseBoundaryLoop content st = parseBoundaryLoop content st2 := by
  conv_lhs => unfold parseBoundaryLoop
  split <;> simp_all

theorem stepCount_halt_not_ok (content : List String) (st : BState)
    (bd : List (String × Boundary)) :
    stepCount content st ≠ .halt (.ok bd) := by
  unfold stepCount
  repeat' split
  all_goals simp

theorem stepPatchLine_halt_not_ok (line : String) (st : BState)
    (bd : List (String × Boundary)) :
    stepPatchLine line st ≠ .halt (.ok bd) := by
  unfold stepPatchLine
  repeat' split
  all_goals simp

theorem stepPatchName_halt_not_ok (content : List String) (line : String)
    (st : BState) (bd : List (String × Boundary)) :
    stepPatchName content line st ≠ .halt (.ok bd) := by
  unfold stepPatchName
  repeat' split
  all_goals simp

theorem boundaryStep_halt_ok (content : List String) (st : BState)
    (bd : List (String × Boundary))
    (h : boundaryStep content st = .halt (.ok bd)) : bd = st.bd := by
  unfold boundaryStep at h
  repeat' split at h
  any_goals cases h
  any_goals rfl
  · exact absurd h (stepCount_halt_not_ok content st bd)
  · exact absurd h (stepPatchLine_halt_not_ok _ st bd)
  · exact absurd h (stepPatchName_halt_not_ok content _ st bd)

theorem stepCount_next_st (content : List String) (st st2 : BState)
    (h : stepCount content st = .next st2) :
    st2.bd = st.bd ∧ st2.bid = st.bid := by
  unfold stepCount at h
  repeat' split at h
  all_goals cases h
  all_goals simp [stEnterBlock]

theorem stepPatchLine_next_st (line : String) (st st2 : BState)
    (h : stepPatchLine line st = .next st2) :
    st2.bd = st.bd ∧ st2.bid = st.bid ∨
    st2.bd = st.bd ++ [(st.current_patch,
        ⟨st.current_type, st.current_num_faces, st.current_start_face,
          -10 - st.bid⟩)] ∧ st2.bid = st.bid + 1 := by
  unfold stepPatchLine at h
  repeat' split at h
  all_goals cases h
  all_goals simp [stInsert, stSetNum, stSetStart, stSetType, stAdvance, hmInsert]

theorem stepPatchName_next_st (content : List String) (line : String)
    (st st2 : BState) (h : stepPatchName content line st = .next st2) :
    st2.bd = st.bd ∧ st2.bid = st.bid := by
  unfold stepPatchName at h
  repeat' split at h
  all_goals cases h
  all_goals simp [stAdvance, stEnterPatch]

theorem boundaryStep_next_st (content : List String) (st st2 : BState)
    (h : boundaryStep content st = .next st2) :
    st2.bd = st.bd ∧ st2.bid = st.bid ∨
    st2.bd = st.bd ++ [(st.current_patch,
        ⟨st.current_type, st.current_num_faces, st.current_start_face,
          -10 - st.bid⟩)] ∧ st2.bid = st.bid + 1 := by
  unfold boundaryStep at h
  repeat' split at h
  any_goals cases h
  · exact Or.inl (stepCount_next_st content st st2 h)
  · exact Or.inl (by simp [stAdvance])
  · exact stepPatchLine_next_st _ st st2 h
  · exact Or.inl (stepPatchName_next_st content _ st st2 h)

theorem parseBoundaryLoop_ids (content : List String) (n : Nat) :
    ∀ st : BState, content.length + 1 - st.i ≤ n →
    st.bid = (st.bd.length : Int) → idsAssigned st.bd →
    ∀ bd, parseBoundaryLoop content st = .ok bd → idsAssigned bd := by
  induction n with
  | zero =>
    intro st hn hbid hids bd hok
    have hstep : boundaryStep content st = .halt (.err .eofBoundary) := by
      unfold boundaryStep
      rw [if_pos (by omega)]
    rw [parseBoundaryLoop_halt content st _ hstep] at hok
    cases hok
  | succ n ih =>
    intro st hn hbid hids bd hok
    cases hstep : boundaryStep content st with
    | halt r =>
      rw [parseBoundaryLoop_halt content st r hstep] at hok
      subst hok
      have hb := boundaryStep_halt_ok content st bd hstep
      rw [hb]
      exact hids
    | next st2 =>
      rw [parseBoundaryLoop_next content st st2 hstep] at hok
      have hb := boundaryStep_bound content st st2 hstep
      rcases boundaryStep_next_st content st st2 hstep with ⟨h1, h2⟩ | ⟨h1, h2⟩
      · exact ih st2 (by omega) (by rw [h1, h2, hbid]) (by rw [h1]; exact hids)
          bd hok
      · apply ih st2 (by omega) _ _ bd hok
        · have hl : st2.bd.length = st.bd.length + 1 := by
            rw [h1]
            simp
          rw [h2, hbid, hl]
          push_cast
          ring
        · simp only [idsAssigned] at hids ⊢
          rw [h1]
          simp only [List.map_append, List.map_singleton, List.length_append,
            List.length_singleton, List.range_succ, hids, hbid]
          simp

/-- Claim C3: when parse_boundary succeeds with a patch list whose names
are distinct, the boundary_id values assigned to the patch records are
exactly -10, -11, ..., -10 - (k - 1) for k patches, one per patch in
file order. -/
theorem c3_boundary_ids (lines : List String) (skip : Nat)
    (bd : List (String × Boundary))
    (hok : FoamMesh.parse_boundary lines skip = .ok bd)
    (hnd : (bd.map Prod.fst).Nodup) : idsAssigned bd := by
  exact parseBoundaryLoop_ids (lines.drop skip) ((lines.drop skip).length + 1)
    ⟨false, false, "", "", 0, 0, 0, [], 0⟩ (by omega) (by simp)
    (by simp [idsAssigned]) bd hok

/-- Witness for claim C3: a one-patch boundary file parses successfully
and receives boundary_id -10. -/
theorem c3_boundary_ids_witness :
    idsAssigned [("p", (⟨"wall", 2, 0, -10⟩ : Boundary))] := by
  have hparse : FoamMesh.parse_boundary
      ["1", "(", "p", "\x7b", "nFaces 2;", "startFace 0;", "type wall;",
        "\x7d", ")"] 0 =
      .ok [("p", (⟨"wall", 2, 0, -10⟩ : Boundary))] := by
    show parseBoundaryLoop _ ⟨false, false, "", "", 0, 0, 0, [], 0⟩ = _
    rw [parseBoundaryLoop_next _ _ ⟨true, false, "", "", 0, 0, 0, [], 2⟩
        (by decide),
      parseBoundaryLoop_next _ _ ⟨true, true, "p", "", 0, 0, 0, [], 4⟩
        (by decide),
      parseBoundaryLoop_next _ _ ⟨true, true, "p", "", 2, 0, 0, [], 5⟩
        (by decide),
      parseBoundaryLoop_next _ _ ⟨true, true, "p", "", 2, 0, 0, [], 6⟩
        (by decide),
      parseBoundaryLoop_next _ _ ⟨true, true, "p", "wall", 2, 0, 0, [], 7⟩
        (by decide),
      parseBoundaryLoop_next _ _ ⟨true, false, "", "wall", 2, 0, 1,
        [("p", ⟨"wall", 2, 0, -10⟩)], 8⟩ (by decide),
      parseBoundaryLoop_halt _ _ (.ok [("p", ⟨"wall", 2, 0, -10⟩)])
        (by decide)]
  exact c3_boundary_ids _ 0 _ hparse (by decide)

/-- Claim C7 (code bug): a boundary file whose lines are exhausted
before a closing parenthesis is reached can make parse_boundary panic
with an out-of-range index instead of returning the unexpected
end-of-file error, because the source checks i > content.len() before
indexing content[i]: on the single line 1 the count branch reads
content[i + 1] past the end. -/
theorem c7_eof_panics : FoamMesh.parse_boundary ["1"] 0 = .panic := by
  show parseBoundaryLoop _ ⟨false, false, "", "", 0, 0, 0, [], 0⟩ = _
  rw [parseBoundaryLoop_halt _ _ .panic (by decide)]

/-- Claim C8 (code bug): a nonuniform field declaring count 2 with only
one data line remaining panics instead of returning the
shorter-than-declared error, because the source guards
M + start > content.len() but slices content[start+3 .. start+3+M],
which is off by the three lines of declaration, count and opening
parenthesis. -/
theorem c8_short_nonuniform_panics :
    parse_internal_field parseNat?
      ["internalField nonuniform", "2", "(", "1"] = .panic := by
  rfl

theorem findIdxChar_none_of (c : Char) (l : List Char)
    (h : ∀ x ∈ l, x ≠ c) : findIdxChar c l = none := by
  induction l with
  | nil => rfl
  | cons x xs ih =>
    show (if x == c then some 0 else (findIdxChar c xs).map (fun k => k + 1)) =
      none
    have hx : (x == c) = false := by
      have := h x (List.mem_cons_self x xs)
      simp [this]
    rw [hx, if_neg (by simp), ih (fun y hy => h y (List.mem_cons_of_mem x hy))]
    rfl

theorem findIdxChar_append_none (c : Char) (l r : List Char)
    (h : findIdxChar c l = none) :
    findIdxChar c (l ++ r) = (findIdxChar c r).map (fun k => k + l.length) := by
  induction l with
  | nil => simp
  | cons x xs ih =>
    rw [show findIdxChar c (x :: xs) =
      (if x == c then some 0 else (findIdxChar c xs).map (fun k => k + 1))
      from rfl] at h
    cases hx : (x == c) with
    | true => rw [hx, if_pos rfl] at h; cases h
    | false =>
      rw [hx, if_neg (by simp)] at h
      have hxs : findIdxChar c xs = none := Option.map_eq_none'.mp h
      show (if x == c then some 0
        else (findIdxChar c (xs ++ r)).map (fun k => k + 1)) = _
      rw [hx, if_neg (by simp), ih hxs]
      cases findIdxChar c r with
      | none => rfl
      | some k =>
        simp [List.length_cons]
        omega

theorem splitOnCharL_no_sep (sep : Char) (l : List Char)
    (h : ∀ x ∈ l, x ≠ sep) : splitOnCharL sep l = [l] := by
  induction l with
  | nil => rfl
  | cons x xs ih =>
    show (match splitOnCharL sep xs with
      | [] => [[]]
      | g :: gs => if x == sep then [] :: g :: gs else (x :: g) :: gs) = [x :: xs]
    rw [ih (fun y hy => h y (List.mem_cons_of_mem x hy))]
    have hx : (x == sep) = false := by
      have := h x (List.mem_cons_self x xs)
      simp [this]
    rw [hx]
    rfl

theorem uniformField_eval (d : String → Option α) (line : String) (s e : Nat)
    (ho : findIdxChar '(' line.data = some s)
    (hc : findIdxChar ')' line.data = some e) (hlt : ¬ e < s + 1) :
    uniformField d line = .ok ((((splitOnCharL ' '
      ((line.data.drop (s + 1)).take (e - (s + 1)))).map
      (fun cs => String.mk cs)).filterMap d) : List α) := by
  unfold uniformField
  rw [ho, hc]
  show (if e < s + 1 then PRes.panic else .ok _) = _
  rw [if_neg hlt]

/-- Claim C9 (counterexample): the vector field value (1 2 3) written
uniformly and nonuniformly describes the same data, yet the nonuniform
file decodes to the one-element sequence [(1, 2, 3)] while the uniform
file decodes to the empty sequence, because the uniform branch splits
the text between the outermost parentheses on spaces and feeds the
fragments to the element decoder, which rejects each fragment of a
vector literal. -/
theorem c9_counterexample :
    parse_internal_field parse_vector3
      ["internalField nonuniform", "1", "(", "(1 2 3)", ")"] =
      .ok [((1 : Int), (2 : Int), (3 : Int))] ∧
    parse_internal_field parse_vector3
      ["internalField uniform (1 2 3);"] = .ok [] := by
  constructor
  · rfl
  · rfl

/-- Claim C9 (amended): the uniform and nonuniform spellings of the same
data decode identically when the uniform value is a single token holding
no parenthesis or space, accepted by the element decoder, on a line not
otherwise containing the word nonuniform; both files then decode to the
one-element sequence holding the decoded value. -/
theorem c9_uniform_nonuniform (d : String → Option α) (v : α) (t : String)
    (line : String)
    (hline : line.data =
      ("internalField uniform (").data ++ t.data ++ (");").data)
    (ht : ∀ c ∈ t.data, c ≠ '(' ∧ c ≠ ')' ∧ c ≠ ' ')
    (hnu : strContains line ("nonuniform") = false)
    (hd : d t = some v) :
    parse_internal_field d [line] = .ok [v] ∧
    parse_internal_field d ["internalField nonuniform", "1", "(", t, ")"] =
      .ok [v] := by
  constructor
  · have hsw : strStartsWith line ("internalField") = true := by
      unfold strStartsWith
      rw [hline]
      rfl
    have hcu : strContains line ("uniform") = true := by
      unfold strContains
      rw [hline]
      rfl
    have ho : findIdxChar '(' line.data = some 22 := by
      rw [hline]
      rfl
    have hnc : findIdxChar ')'
        (("internalField uniform (").data ++ t.data) = none := by
      apply findIdxChar_none_of
      intro x hx
      rcases List.mem_append.mp hx with hA | hT
      · have hAll : ∀ y ∈ ("internalField uniform (").data, y ≠ ')' := by
          decide
        exact hAll x hA
      · exact (ht x hT).2.1
    have hc : findIdxChar ')' line.data =
        some ((("internalField uniform (").data ++ t.data).length) := by
      rw [hline, findIdxChar_append_none _ _ _ hnc,
        show findIdxChar ')' ((");").data) = some 0 from rfl,
        Option.map_some']
      simp
    have hlen : (("internalField uniform (").data ++ t.data).length =
        23 + t.data.length := by
      rw [List.length_append]
      rfl
    show pifLoop d [line] [line] 0 = .ok [v]
    rw [show pifLoop d [line] [line] 0 =
      (if strStartsWith line ("internalField") = true then
        (if strContains line ("nonuniform") = true then
          nonuniformField d [line] 0
         else if strContains line ("uniform") = true then uniformField d line
         else .err .notUniformDecl)
       else pifLoop d [line] [] (0 + 1)) from rfl]
    rw [hsw, hnu, hcu]
    simp only [if_true]
    rw [if_neg (by simp)]
    rw [uniformField_eval d line 22
      ((("internalField uniform (").data ++ t.data).length) ho hc
      (by rw [hlen]; omega)]
    have harith : (("internalField uniform (").data ++ t.data).length -
        (22 + 1) = t.data.length := by
      rw [hlen]
      omega
    rw [harith, hline, List.append_assoc]
    rw [show (22 + 1) = (("internalField uniform (").data).length from rfl]
    rw [List.drop_left, List.take_left]
    rw [splitOnCharL_no_sep ' ' t.data (fun c hc2 => (ht c hc2).2.2)]
    have hfm : List.filterMap d [t] = [v] := by
      simp [hd]
    show (PRes.ok (List.filterMap d [t]) : PRes (List α)) = .ok [v]
    rw [hfm]
  · show nonuniformField d ["internalField nonuniform", "1", "(", t, ")"] 0 =
      .ok [v]
    have hfm : List.filterMap d [t] = [v] := by
      simp [hd]
    show (if (List.filterMap d [t]).length ≠ 1 then
        PRes.err (.countMismatch 1 (List.filterMap d [t]).length)
      else .ok (List.filterMap d [t])) = .ok [v]
    rw [hfm]
    rfl

/-- Witness for claim C9: the scalar value 7 written uniformly and
nonuniformly decodes to [7] both ways. -/
theorem c9_uniform_nonuniform_witness :
    parse_internal_field parseNat? ["internalField uniform (7);"] =
      .ok [7] ∧
    parse_internal_field parseNat?
      ["internalField nonuniform", "1", "(", "7", ")"] = .ok [7] :=
  c9_uniform_nonuniform parseNat? 7 ("7") ("internalField uniform (7);")
    (by rfl) (by decide) (by decide) (by rfl)

end Ofp
